import Mathlib

/-!
Verification development for the rxwp reactive runtime and its
Sequential Three-Way Splice (STWS) DOM reconciliation algorithm.

The definitions below are shallow embeddings of the TypeScript sources:
  - `STWS`   : packages/dom-reconcile/src/src/reconcile.ts
  - `RX`     : packages/reactivity/src/observable.ts (graph engine, queues)
  - `AX`     : packages/reactivity asynx scheduling layer (index.ts)
  - `IA`     : the indexArray operator

JavaScript values that matter to control flow (`null` vs `undefined` vs a
DOM node) are modelled by `STWS.JSVal`; machine behaviour of `Array.prototype`
operations (`splice`, `slice`, `indexOf` with clamping of negative indices)
is reproduced by the `js*` helpers.  DOM mutations follow the WHATWG
pre-insert / pre-replace algorithms on a single parent, recorded in an
operation log.  Host computation functions of observers are abstracted by
their outcome (`RX.FnRes`), since the claims under study only depend on the
produced value or thrown error.
-/

namespace STWS

/-- A JavaScript value as seen by the reconciler: `null`, `undefined`,
or a DOM node (identified by a natural number; nodes are compared by
reference equality in the source, here by `Nat` equality). -/
inductive JSVal where
  | null
  | jsUndefined
  | node (n : Nat)
deriving DecidableEq, Repr

/-- One recorded DOM mutation issued against the parent node. -/
inductive DomOp where
  | insertBefore (child : Nat) (ref : JSVal)
  | removeChild (child : Nat)
  | replaceChild (n old : Nat)
deriving DecidableEq, Repr

/-- The parent DOM node: its ordered child list plus the log of issued
mutations. -/
structure Dom where
  children : List Nat
  ops : List DomOp
deriving DecidableEq, Repr

/-- Next sibling of node `x` inside a child list: the following element,
or `null` when `x` is last or detached. -/
def sibAfter : List Nat → Nat → JSVal
  | [], _ => .null
  | y :: t, x =>
    if y = x then
      match t with
      | [] => .null
      | z :: _ => .node z
    else sibAfter t x

/-- Insert node `c` immediately before the first occurrence of `ref`
(append when `ref` is `none` or absent). -/
def insBeforeRef (l : List Nat) (c : Nat) (ref : Option Nat) : List Nat :=
  match ref with
  | none => l ++ [c]
  | some r =>
    match l with
    | [] => [c]
    | y :: t => if y = r then c :: y :: t else y :: insBeforeRef t c (some r)

/-- `parent.insertBefore(child, ref)` following the DOM pre-insert
algorithm: validate the reference child, treat a self-reference as
inserting before the node's own next sibling, detach the node from its
old position, insert (append on `null`/`undefined` reference). -/
def domInsertBefore (d : Dom) (child ref : JSVal) : Except String Dom :=
  match child with
  | .node c =>
    match ref with
    | .node r =>
      if r ∈ d.children then
        let eff : Option Nat :=
          if r = c then
            match sibAfter d.children c with
            | .node y => some y
            | _ => none
          else some r
        .ok { children := insBeforeRef (d.children.erase c) c eff,
              ops := d.ops ++ [.insertBefore c ref] }
      else .error "NotFoundError: insertBefore reference is not a child"
    | _ =>
      .ok { children := d.children.erase c ++ [c],
            ops := d.ops ++ [.insertBefore c ref] }
  | _ => .error "TypeError: insertBefore child is not a Node"

/-- `parent.removeChild(child)`. -/
def domRemoveChild (d : Dom) (child : JSVal) : Except String Dom :=
  match child with
  | .node c =>
    if c ∈ d.children then
      .ok { children := d.children.erase c, ops := d.ops ++ [.removeChild c] }
    else .error "NotFoundError: removeChild of a non-child"
  | _ => .error "TypeError: removeChild child is not a Node"

/-- `parent.replaceChild(n, old)` following the DOM pre-replace algorithm:
reference child is `old`'s next sibling (skipping `n` itself), `old` is
removed, then `n` is moved before the reference child. -/
def domReplaceChild (d : Dom) (n old : JSVal) : Except String Dom :=
  match n, old with
  | .node nn, .node oo =>
    if oo ∈ d.children then
      let ref0 := sibAfter d.children oo
      let ref1 := if ref0 = .node nn then sibAfter d.children nn else ref0
      let eff : Option Nat := match ref1 with | .node y => some y | _ => none
      let base := (d.children.erase oo).erase nn
      .ok { children := insBeforeRef base nn eff,
            ops := d.ops ++ [.replaceChild nn oo] }
    else .error "NotFoundError: replaceChild of a non-child"
  | _, _ => .error "TypeError: replaceChild arguments are not Nodes"

/-- `x[i]` on a JS array of values: `undefined` out of range. -/
def jsGet (l : List JSVal) (i : Int) : JSVal :=
  if 0 ≤ i then
    match l.get? i.toNat with
    | some v => v
    | none => .jsUndefined
  else .jsUndefined

/-- `x[i]` on the (immutable) next-nodes array. -/
def jsGetN (l : List Nat) (i : Int) : JSVal :=
  if 0 ≤ i then
    match l.get? i.toNat with
    | some v => .node v
    | none => .jsUndefined
  else .jsUndefined

/-- `x[i] = v` on a JS array (extending with holes when past the end,
ignoring negative indices, which never occur on the traced paths). -/
def jsSet (l : List JSVal) (i : Int) (v : JSVal) : List JSVal :=
  if 0 ≤ i then
    let n := i.toNat
    if n < l.length then l.set n v
    else l ++ List.replicate (n - l.length) .jsUndefined ++ [v]
  else l

/-- `Array.prototype.splice(start, deleteCount, ...items)`: returns the
new array and the removed elements, with JS clamping of both arguments. -/
def jsSplice (l : List JSVal) (start delCnt : Int) (items : List JSVal) :
    List JSVal × List JSVal :=
  let len : Int := l.length
  let s : Nat := (if start < 0 then max (len + start) 0 else min start len).toNat
  let dc : Nat := (min (max delCnt 0) (len - (s : Int))).toNat
  ((l.take s ++ items ++ l.drop (s + dc)), ((l.drop s).take dc))

/-- `Array.prototype.slice(a, b)` on the next-nodes array. -/
def jsSliceN (l : List Nat) (a b : Int) : List Nat :=
  let len : Int := l.length
  let s := (if a < 0 then max (len + a) 0 else min a len).toNat
  let e := (if b < 0 then max (len + b) 0 else min b len).toNat
  (l.drop s).take (e - s)

/-- `Array.prototype.slice(a, b)` on a JS array of values. -/
def jsSliceJ (l : List JSVal) (a b : Int) : List JSVal :=
  let len : Int := l.length
  let s := (if a < 0 then max (len + a) 0 else min a len).toNat
  let e := (if b < 0 then max (len + b) 0 else min b len).toNat
  (l.drop s).take (e - s)

/-- First index of `x` in `l`, or `none`. -/
def idxAux : List JSVal → JSVal → Option Nat
  | [], _ => none
  | y :: t, x => if y = x then some 0 else (idxAux t x).map (· + 1)

/-- `Array.prototype.indexOf(x, from)` with JS clamping; `-1` when absent. -/
def jsIndexOf (l : List JSVal) (x : JSVal) (from_ : Int) : Int :=
  let len : Int := l.length
  let s : Nat := (if from_ < 0 then max (len + from_) 0 else from_).toNat
  match idxAux (l.drop s) x with
  | some k => (s : Int) + k
  | none => -1

/-- `Map<Node, number>.set` (replace an existing key, else append). -/
def mapSet (m : List (JSVal × Int)) (k : JSVal) (v : Int) : List (JSVal × Int) :=
  match m with
  | [] => [(k, v)]
  | (k0, v0) :: t => if k0 = k then (k, v) :: t else (k0, v0) :: mapSet t k v

/-- `Map.get`. -/
def mapGet (m : List (JSVal × Int)) (k : JSVal) : Option Int :=
  match m with
  | [] => none
  | (k0, v0) :: t => if k0 = k then some v0 else mapGet t k

/-- `Map.has`. -/
def mapHas (m : List (JSVal × Int)) (k : JSVal) : Bool :=
  (mapGet m k).isSome

/-- `nextIndexes.get(x) || -1`: a stored index `0` is falsy in JS and
collapses to `-1`. -/
def mapGetOr (m : List (JSVal × Int)) (k : JSVal) : Int :=
  match mapGet m k with
  | some v => if v = 0 then -1 else v
  | none => -1

/-- `Set<Node>.has`. -/
def setHas (s : List JSVal) (x : JSVal) : Bool := s.contains x

/-- Build the `nextIndexes` map: `for (j = start; j < nextEnd; ++j)
nextIndexes.set(next[j], j)`. -/
def buildIdxAux (nxt : List Nat) (j : Int) : Nat → List (JSVal × Int) → List (JSVal × Int)
  | 0, m => m
  | Nat.succ n, m => buildIdxAux nxt (j + 1) n (mapSet m (jsGetN nxt j) j)

def buildIdx (nxt : List Nat) (a b : Int) : List (JSVal × Int) :=
  buildIdxAux nxt a (b - a).toNat []

/-- Matching inner loop of `subsequenceIndex`. -/
def seqMatchesAux (more less : List JSVal) (mStart lStart : Int) : Nat → Bool
  | 0 => true
  | Nat.succ n =>
    decide (jsGet more mStart = jsGet less lStart) &&
      seqMatchesAux more less (mStart + 1) (lStart + 1) n

/-- `subsequenceIndex(moreNodes, moreStart, moreEnd, lessNodes, lessStart,
lessEnd)`: find the index of the shorter run inside the longer one.  Note
the source returns the unverified index when fewer elements remain after it
than the shorter run needs. -/
def subsequenceIndexJ (more : List JSVal) (moreStart moreEnd : Int)
    (less : List JSVal) (lessStart lessEnd : Int) : Int :=
  let i := jsIndexOf more (jsGet less lessStart) moreStart
  if i > -1 ∧ moreEnd - (i + 1) ≥ lessEnd - (lessStart + 1) then
    if seqMatchesAux more less (i + 1) (lessStart + 1) (lessEnd - (lessStart + 1)).toNat
    then i else -1
  else i

/-- The reconciler's mutable context: the DOM, the in-place `current`
array, the immutable `next` array, and the shared cursor variables of
`reconcile`. -/
structure RS where
  dom : Dom
  cur : List JSVal
  nxt : List Nat
  currentEnd : Int
  nextEnd : Int
  start : Int
  ins : Int
  advancedDiff : Bool
  lastCurrent : JSVal
  lastNext : JSVal
  nextIndexes : Option (List (JSVal × Int))
  prevNodes : Option (List JSVal)
deriving Repr

/-- Reconciler computations: state over `RS` with JS exceptions. -/
abbrev M := ExceptT String (StateM RS)

def mInsertBefore (child ref : JSVal) : M Unit := do
  let s ← get
  match domInsertBefore s.dom child ref with
  | .ok d => set { s with dom := d }
  | .error e => throw e

def mRemoveChild (child : JSVal) : M Unit := do
  let s ← get
  match domRemoveChild s.dom child with
  | .ok d => set { s with dom := d }
  | .error e => throw e

def mReplaceChild (n old : JSVal) : M Unit := do
  let s ← get
  match domReplaceChild s.dom n old with
  | .ok d => set { s with dom := d }
  | .error e => throw e

/-- `x.nextSibling`: throws the JS `TypeError` when `x` is not a node
(reading a member of `undefined`). -/
def mNextSibling (x : JSVal) : M JSVal := do
  match x with
  | .node c => do
    let s ← get
    pure (sibAfter s.dom.children c)
  | _ => throw "TypeError: cannot read nextSibling of undefined"

/-- Step 3 of the shared checks: swap two nodes on opposite sides. -/
def swapBranch : M Unit := do
  let s ← get
  let ce := s.currentEnd - 1
  let target ← mNextSibling (jsGet s.cur ce)
  modify fun t => { t with currentEnd := ce }
  mInsertBefore (jsGetN s.nxt s.start) (jsGet s.cur s.start)
  let ne := s.nextEnd - 1
  modify fun t => { t with nextEnd := ne }
  if ne - s.start > 1 ∧ ce - s.start > 1 then
    mInsertBefore (jsGetN s.nxt ne) target
  modify fun t => { t with cur := jsSet t.cur ce (jsGetN t.nxt ne) }
  modify fun t =>
    { t with cur := jsSet t.cur t.start (jsGetN t.nxt t.start), start := t.start + 1 }

/-- Initial-mode step 4: right-to-left single move. -/
def rtlMove : M Unit := do
  let s ← get
  mInsertBefore (jsGetN s.nxt s.start) (jsGet s.cur s.start)
  let t ← get
  let (c1, rem) := jsSplice t.cur (t.currentEnd - 1) 1 []
  let (c2, _) := jsSplice c1 t.start 0 [rem.headD .jsUndefined]
  set { t with cur := c2, start := t.start + 1 }

/-- Initial-mode step 5: left-to-right single move. -/
def ltrMove : M Unit := do
  let s ← get
  let ne := s.nextEnd - 1
  let ce := s.currentEnd - 1
  modify fun t => { t with nextEnd := ne, currentEnd := ce }
  let sib ← mNextSibling (jsGet s.cur ce)
  mInsertBefore (jsGetN s.nxt ne) sib
  let t ← get
  let (c1, rem) := jsSplice t.cur t.start 1 []
  let (c2, _) := jsSplice c1 t.currentEnd 0 [rem.headD .jsUndefined]
  set { t with cur := c2 }

/-- `fastPaths`: full-subsequence and one-to-many fast paths.  Returns
`true` when applied (the caller then returns from `reconcile`). -/
def mFastPaths : M Bool := do
  let s ← get
  let curJ := s.cur
  let nxtJ := s.nxt.map JSVal.node
  let mut currentStart := s.start
  let mut nextStart := s.start
  let currentEnd := s.currentEnd
  let nextEnd := s.nextEnd
  let currentLeft := currentEnd - currentStart
  let nextLeft := nextEnd - nextStart
  let bnd := s.cur.length + s.nxt.length + 2
  if currentLeft < nextLeft then
    let i := subsequenceIndexJ nxtJ nextStart nextEnd curJ currentStart currentEnd
    if i > -1 then
      for _ in [0:bnd] do
        if nextStart < i then
          mInsertBefore (jsGet nxtJ nextStart) (jsGet curJ currentStart)
          nextStart := nextStart + 1
        else break
      let tgt ← mNextSibling (jsGet curJ (currentEnd - 1))
      nextStart := i + currentLeft
      for _ in [0:bnd] do
        if nextStart < nextEnd then
          mInsertBefore (jsGet nxtJ nextStart) tgt
          nextStart := nextStart + 1
        else break
      return true
  else if nextLeft < currentLeft then
    let i := subsequenceIndexJ curJ currentStart currentEnd nxtJ nextStart nextEnd
    if i > -1 then
      for _ in [0:bnd] do
        if currentStart < i then
          mRemoveChild (jsGet curJ currentStart)
          currentStart := currentStart + 1
        else break
      currentStart := i + nextLeft
      for _ in [0:bnd] do
        if currentStart < currentEnd then
          mRemoveChild (jsGet curJ currentStart)
          currentStart := currentStart + 1
        else break
      return true
  if currentLeft = 1 ∨ nextLeft = 1 then
    for _ in [0:bnd] do
      if nextStart < nextEnd then
        mInsertBefore (jsGet nxtJ nextStart) (jsGet curJ currentStart)
        nextStart := nextStart + 1
      else break
    for _ in [0:bnd] do
      if currentStart < currentEnd then
        mRemoveChild (jsGet curJ currentStart)
        currentStart := currentStart + 1
      else break
    return true
  return false

/-- Initial-mode step 7: build the helper `Map` and `Set` and enter the
advanced diff mode. -/
def initAdvanced : M Unit := do
  modify fun t =>
    { t with
      nextIndexes := some (buildIdx t.nxt t.start t.nextEnd),
      prevNodes := some (jsSliceJ t.cur t.start t.currentEnd),
      advancedDiff := true }

/-- Advanced-mode step 4: replace-run at both tails. -/
def replaceRunBranch (i j : Int) : M Unit := do
  let s ← get
  mReplaceChild (jsGetN s.nxt i) (jsGet s.cur j)
  modify fun t => { t with cur := jsSet t.cur j (jsGetN t.nxt i) }
  let mut seq : Int := 1
  let bnd := s.cur.length + s.nxt.length + 2
  for _ in [0:bnd] do
    let t ← get
    if i - seq ≥ t.start ∧ j - seq ≥ t.start
        ∧ ¬ setHas (t.prevNodes.getD []) (jsGetN t.nxt (i - seq))
        ∧ ¬ mapHas (t.nextIndexes.getD []) (jsGet t.cur (j - seq)) then
      mReplaceChild (jsGetN t.nxt (i - seq)) (jsGet t.cur (j - seq))
      modify fun u => { u with cur := jsSet u.cur (j - seq) (jsGetN u.nxt (i - seq)) }
      seq := seq + 1
    else break
  modify fun t => { t with currentEnd := t.currentEnd - seq }
  modify fun t => { t with lastCurrent := jsGet t.cur t.currentEnd }
  modify fun t => { t with nextEnd := t.nextEnd - seq }
  modify fun t => { t with lastNext := jsGetN t.nxt t.nextEnd }

/-- Advanced-mode step 5: insert-run at the next tail. -/
def insertRunBranch (i : Int) : M Unit := do
  let s ← get
  let sib ← mNextSibling (jsGet s.cur (s.currentEnd - 1))
  mInsertBefore (jsGetN s.nxt i) sib
  let mut target : JSVal := jsGetN s.nxt i
  let mut seq : Int := 1
  let bnd := s.nxt.length + 2
  for _ in [0:bnd] do
    let t ← get
    let jj := i - seq
    if jj ≥ t.start ∧ ¬ setHas (t.prevNodes.getD []) (jsGetN t.nxt jj) then
      mInsertBefore (jsGetN t.nxt jj) target
      target := jsGetN t.nxt jj
      seq := seq + 1
    else break
  modify fun t =>
    { t with cur := (jsSplice t.cur t.currentEnd 0
        ((jsSliceN t.nxt (t.nextEnd - seq) t.nextEnd).map .node)).fst }
  modify fun t => { t with nextEnd := t.nextEnd - seq }
  modify fun t => { t with lastNext := jsGetN t.nxt t.nextEnd }

/-- Advanced-mode step 6: remove-run at the current tail (note the splice
position `nextEnd - seq` taken verbatim from the source). -/
def removeRunBranch (j : Int) : M Unit := do
  let s ← get
  mRemoveChild (jsGet s.cur j)
  let mut seq : Int := 1
  let bnd := s.cur.length + 2
  for _ in [0:bnd] do
    let t ← get
    if j - seq ≥ t.start ∧ ¬ mapHas (t.nextIndexes.getD []) (jsGet t.cur (j - seq)) then
      mRemoveChild (jsGet t.cur (j - seq))
      seq := seq + 1
    else break
  modify fun t => { t with cur := (jsSplice t.cur (t.nextEnd - seq) seq []).fst }
  modify fun t => { t with currentEnd := t.currentEnd - seq }
  modify fun t => { t with lastCurrent := jsGet t.cur t.currentEnd }

/-- Advanced-mode step 7: the three-step two-sides rearrange. -/
def rearrangeBranch : M Unit := do
  let s ← get
  let currentNode := jsGet s.cur s.start
  let nextNode := jsGetN s.nxt s.start
  let bnd := s.cur.length + s.nxt.length + 2
  let mut seq : Int := 1
  let mut i : Int := -1
  let mut k : Int := -1
  let mut cSeq : Int := 0
  let mut cNodes : Option (List JSVal) := none
  -- Step 1: analyze
  if setHas (s.prevNodes.getD []) nextNode then
    i := jsIndexOf s.cur nextNode (s.start + 1)
    for _ in [0:bnd] do
      let t ← get
      if i + seq < t.currentEnd ∧ jsGet t.cur (i + seq) = jsGetN t.nxt (t.start + seq) then
        seq := seq + 1
      else break
  else
    for _ in [0:bnd] do
      let t ← get
      let jj := t.start + seq
      if jj < t.nextEnd ∧ ¬ setHas (t.prevNodes.getD []) (jsGetN t.nxt jj) then
        seq := seq + 1
      else break
  let s1 ← get
  cSeq := if jsGetN s1.nxt (s1.start + seq) = currentNode ∨ (i > -1 ∧ seq > i - s1.start)
          then 0 else 1
  if cSeq > 0 then
    k := mapGetOr (s1.nextIndexes.getD []) currentNode
    if k > -1 then
      for _ in [0:bnd] do
        let t ← get
        if k + cSeq < t.nextEnd ∧ jsGetN t.nxt (k + cSeq) = jsGet t.cur (t.start + cSeq) then
          cSeq := cSeq + 1
        else break
    else
      for _ in [0:bnd] do
        let t ← get
        let jj := t.start + cSeq
        if jj < t.currentEnd ∧ ¬ mapHas (t.nextIndexes.getD []) (jsGet t.cur jj) then
          cSeq := cSeq + 1
        else break
  -- Step 2: RTL / insert
  if i > -1 then
    if seq = 1 then
      if i = k ∧ cSeq = 1 then
        -- inner swap fast path
        let t ← get
        let tgt ← mNextSibling (jsGet t.cur i)
        mInsertBefore (jsGetN t.nxt t.start) (jsGet t.cur t.start)
        if i - t.start > 1 then mInsertBefore (jsGetN t.nxt i) tgt
        modify fun u => { u with cur := jsSet u.cur i (jsGetN u.nxt i) }
        modify fun u =>
          { u with cur := jsSet u.cur u.start (jsGetN u.nxt u.start), start := u.start + 1 }
        return
      mInsertBefore nextNode currentNode
      let t ← get
      let (c1, rem1) := jsSplice t.cur i 1 []
      let (c2, rem2) := jsSplice c1 t.start cSeq [rem1.headD .jsUndefined]
      cNodes := some rem2
      set { t with cur := c2 }
    else
      let t0 ← get
      if seq > i - t0.start then
        -- sequence longer than distance: move preceding items after it
        let tgt ← mNextSibling (jsGet t0.cur (i - 1 + seq))
        let mut j : Int := t0.start
        for _ in [0:bnd] do
          if j < i then
            let u ← get
            mInsertBefore (jsGet u.cur j) tgt
            j := j + 1
          else break
        let u ← get
        let (c1, rem) := jsSplice u.cur u.start (i - u.start) []
        let (c2, _) := jsSplice c1 (u.start + seq) 0 rem
        set { u with cur := c2 }
      else
        -- move the whole sequence before the current node
        let mut j : Int := 0
        for _ in [0:bnd] do
          if j < seq then
            let u ← get
            mInsertBefore (jsGetN u.nxt (u.start + j)) currentNode
            j := j + 1
          else break
        let u ← get
        let (c1, rem) := jsSplice u.cur i seq []
        let (c2, rem2) := jsSplice c1 u.start cSeq rem
        cNodes := some rem2
        set { u with cur := c2 }
  else
    let mut j : Int := 0
    if k = -1 then
      -- replace current nodes with next nodes
      for _ in [0:bnd] do
        let t ← get
        if j < seq ∧ j < cSeq then
          mReplaceChild (jsGetN t.nxt (t.start + j)) (jsGet t.cur (t.start + j))
          modify fun u => { u with cur := jsSet u.cur (u.start + j) (jsGetN u.nxt (u.start + j)) }
          j := j + 1
        else break
      if j < seq then
        let t ← get
        let tgt ← mNextSibling (jsGet t.cur (t.start + j - 1))
        for _ in [0:bnd] do
          if j < seq then
            let u ← get
            mInsertBefore (jsGetN u.nxt (u.start + j)) tgt
            j := j + 1
            modify fun v => { v with currentEnd := v.currentEnd + 1 }
          else break
        let u ← get
        let (c1, _) := jsSplice u.cur (u.start + j) 0
          ((jsSliceN u.nxt (u.start + j) (u.start + seq)).map .node)
        set { u with cur := c1 }
      else if j < cSeq then
        for _ in [0:bnd] do
          if j < cSeq then
            let u ← get
            mRemoveChild (jsGet u.cur (u.start + j))
            j := j + 1
            modify fun v => { v with currentEnd := v.currentEnd - 1 }
          else break
        let u ← get
        let (c1, _) := jsSplice u.cur (u.start + j) (cSeq - j) []
        set { u with cur := c1 }
      cSeq := 0
    else
      -- insert next nodes, current nodes are moved or skipped later
      for _ in [0:bnd] do
        if j < seq then
          let u ← get
          mInsertBefore (jsGetN u.nxt (u.start + j)) currentNode
          j := j + 1
        else break
      let u ← get
      let (c1, rem) := jsSplice u.cur u.start cSeq
        ((jsSliceN u.nxt u.start (u.start + seq)).map .node)
      cNodes := some rem
      set { u with cur := c1, currentEnd := u.currentEnd + seq }
  modify fun t => { t with start := t.start + seq }
  seq := cSeq
  if seq = 0 then return
  -- Step 3: LTR / remove
  i := k
  if i > -1 then
    let t ← get
    let mut dd : Int := i - t.start
    i := i + seq - 1
    let t2 ← get
    if i ≥ t2.currentEnd ∨ (t2.ins ≠ 0 ∧ i ≥ t2.currentEnd - t2.ins) then
      let mut j : Int := if i ≥ t2.currentEnd then t2.currentEnd - 1 else i
      for _ in [0:bnd] do
        if j ≥ t2.currentEnd - t2.ins then
          let u ← get
          match mapGet (u.nextIndexes.getD []) (jsGet u.cur (j - seq)) with
          | some v => if v < i then break else j := j - 1
          | none => j := j - 1
        else break
      i := j
      modify fun u => { u with ins := u.ins + seq }
      let t3 ← get
      dd := i - seq + 1 - t3.start
    let t4 ← get
    k := t4.start + seq
    if k = t4.currentEnd then return
    if seq = 1 then
      let u ← get
      let sib ← mNextSibling (jsGet u.cur (i - seq))
      mInsertBefore currentNode sib
      let u2 ← get
      let (c1, _) := jsSplice u2.cur i 0 [currentNode]
      set { u2 with cur := c1 }
    else if seq > dd ∨ seq > t4.currentEnd - k then
      let mut j : Int := k
      for _ in [0:bnd] do
        let u ← get
        if j < u.currentEnd ∧ j < k + dd then
          mInsertBefore (jsGet u.cur (j - seq)) currentNode
          j := j + 1
        else break
      let u ← get
      let (c1, _) := jsSplice u.cur (j - seq) 0 (cNodes.getD [])
      set { u with cur := c1 }
    else
      let u ← get
      let sib ← mNextSibling (jsGet u.cur (i - seq))
      let cn := cNodes.getD []
      let mut j : Int := 0
      for _ in [0:bnd] do
        if j < seq then
          mInsertBefore (jsGet cn j) sib
          j := j + 1
        else break
      let u2 ← get
      let (c1, _) := jsSplice u2.cur (i - seq + 1) 0 cn
      set { u2 with cur := c1 }
  else
    let cn := cNodes.getD []
    let mut j : Int := 0
    for _ in [0:bnd] do
      if j < seq then
        mRemoveChild (jsGet cn j)
        j := j + 1
      else break
    modify fun u => { u with currentEnd := u.currentEnd - seq }

/-- Advanced diff mode: the tail optimizations (with the assignments that
happen while evaluating the short-circuited conditions) and the rearrange
step. -/
def advancedMode : M Unit := do
  let s ← get
  let i0 : Int := s.nextEnd - 1
  let lnNew := jsGetN s.nxt i0
  if s.lastNext ≠ lnNew then
    modify fun t => { t with lastNext := lnNew }
    if ¬ setHas (s.prevNodes.getD []) lnNew then
      let s1 ← get
      let j0 : Int := s1.currentEnd - 1
      if s1.ins = 0 then
        let lcNew := jsGet s1.cur j0
        if s1.lastCurrent ≠ lcNew then
          modify fun t => { t with lastCurrent := lcNew }
          if ¬ mapHas (s1.nextIndexes.getD []) lcNew then
            replaceRunBranch i0 j0
          else
            insertRunBranch i0
        else
          insertRunBranch i0
      else
        insertRunBranch i0
    else
      advancedElse
  else
    advancedElse
where
  advancedElse : M Unit := do
    let s1 ← get
    if s1.ins = 0 then
      let j0 : Int := s1.currentEnd - 1
      let lcNew := jsGet s1.cur j0
      if s1.lastCurrent ≠ lcNew then
        modify fun t => { t with lastCurrent := lcNew }
        if ¬ mapHas (s1.nextIndexes.getD []) lcNew then
          removeRunBranch j0
        else
          rearrangeBranch
      else
        rearrangeBranch
    else
      rearrangeBranch

/-- One iteration of the main `while` loop.  Returns `true` when a fast
path applied and `reconcile` returns immediately. -/
def loopIter : M Bool := do
  let s ← get
  if jsGet s.cur s.start = jsGetN s.nxt s.start then
    modify fun t => { t with start := t.start + 1 }
    pure false
  else if jsGet s.cur (s.currentEnd - 1) = jsGetN s.nxt (s.nextEnd - 1) then
    modify fun t =>
      { t with currentEnd := t.currentEnd - 1, nextEnd := t.nextEnd - 1,
               ins := if t.ins > 0 then t.ins - 1 else t.ins }
    pure false
  else if s.ins = 0 ∧ jsGet s.cur s.start = jsGetN s.nxt (s.nextEnd - 1)
      ∧ jsGetN s.nxt s.start = jsGet s.cur (s.currentEnd - 1) then
    swapBranch
    pure false
  else if ¬ s.advancedDiff then
    let s0 ← get
    if jsGetN s0.nxt s0.start = jsGet s0.cur (s0.currentEnd - 1) then
      rtlMove
      pure false
    else if jsGet s0.cur s0.start = jsGetN s0.nxt (s0.nextEnd - 1) then
      ltrMove
      pure false
    else do
      let applied ← mFastPaths
      if applied then pure true
      else do
        initAdvanced
        pure false
  else do
    advancedMode
    pure false

/-- The fuelled main loop of `reconcile`. -/
def reconLoop : Nat → M Bool
  | 0 => do
    let s ← get
    if s.start < s.currentEnd ∧ s.start < s.nextEnd then throw "fuel exhausted"
    else pure false
  | Nat.succ n => do
    let s ← get
    if s.start < s.currentEnd ∧ s.start < s.nextEnd then do
      let fin ← loopIter
      if fin then pure true else reconLoop n
    else pure false

/-- Final phase: insert or remove the remaining elements. -/
def reconTail : M Unit := do
  let s ← get
  if s.start = s.currentEnd then
    if s.start = s.nextEnd then return
    let tgt ← mNextSibling (jsGet s.cur (s.currentEnd - 1))
    let mut st := s.start
    let bnd := s.nxt.length + 2
    for _ in [0:bnd] do
      let u ← get
      if st < u.nextEnd then
        mInsertBefore (jsGetN u.nxt st) tgt
        st := st + 1
      else break
    modify fun u => { u with start := st }
  else if s.start = s.nextEnd then
    let mut st := s.start
    let bnd := s.cur.length + 2
    for _ in [0:bnd] do
      let u ← get
      if st < u.currentEnd then
        mRemoveChild (jsGet u.cur st)
        st := st + 1
      else break
    modify fun u => { u with start := st }

/-- `reconcile(parent, current, next)`. -/
def reconcileM (fuel : Nat) : M Unit := do
  let fin ← reconLoop fuel
  if fin then pure () else reconTail

/-- Run the reconciler: `dom0` is the parent's initial child list,
`current` and `next` the two input arrays. -/
def reconcileRun (dom0 current next : List Nat) : Except String Unit × RS :=
  let st0 : RS :=
    { dom := { children := dom0, ops := [] },
      cur := current.map .node,
      nxt := next,
      currentEnd := current.length,
      nextEnd := next.length,
      start := 0,
      ins := 0,
      advancedDiff := false,
      lastCurrent := .null,
      lastNext := .null,
      nextIndexes := none,
      prevNodes := none }
  ((reconcileM ((current.length + next.length + 2) * (current.length + next.length + 2))).run).run st0

/-- The common entry point for the claims: the parent's children are
exactly `current` (the mirror precondition). -/
def reconcileSim (current next : List Nat) : Except String Unit × RS :=
  reconcileRun current current next

/-- Run a reconciler computation from a given state. -/
def runM {α : Type} (x : M α) (st : RS) : Except String α × RS :=
  (ExceptT.run x).run st

/-- Helper for C10: the main loop is a no-op whenever its condition fails,
for every fuel value. -/
theorem reconLoop_stop (f : Nat) (st : RS)
    (h : ¬ (st.start < st.currentEnd ∧ st.start < st.nextEnd)) :
    runM (reconLoop f) st = (Except.ok false, st) := by
  cases f <;>
    simp [runM, reconLoop, h, ExceptT.run, bind, ExceptT.bind, ExceptT.bindCont, ExceptT.mk,
      StateT.bind, get, getThe, MonadStateOf.get, StateT.get, pure, ExceptT.pure, StateT.pure,
      ExceptT.lift, StateT.run, liftM, monadLift, MonadLift.monadLift, StateT.lift,
      Functor.map, StateT.map]

theorem runM_bind {α β : Type} (x : M α) (f : α → M β) (st : RS) :
    runM (x >>= f) st =
      (match runM x st with
       | (Except.ok a, s) => runM (f a) s
       | (Except.error e, s) => (Except.error e, s)) := by
  simp only [runM, bind, ExceptT.bind, ExceptT.bindCont, ExceptT.run, ExceptT.mk,
    StateT.bind, StateT.run]
  cases hx : x st with
  | mk a s => cases a <;> simp [StateT.run, pure, StateT.pure, ExceptT.pure, ExceptT.mk]

theorem runM_get (st : RS) : runM (get : M RS) st = (Except.ok st, st) := rfl

/-- One unfolding of the main loop: when the loop condition holds and the
iteration reaches state `st'` without a fast-path return, the loop
continues there. -/
theorem reconLoop_step (n : Nat) (st st' : RS)
    (h : st.start < st.currentEnd ∧ st.start < st.nextEnd)
    (hit : runM loopIter st = (Except.ok false, st')) :
    runM (reconLoop (n + 1)) st = runM (reconLoop n) st' := by
  show runM (get >>= fun s =>
    if s.start < s.currentEnd ∧ s.start < s.nextEnd then
      loopIter >>= fun fin => if fin = true then pure true else reconLoop n
    else pure false) st = runM (reconLoop n) st'
  rw [runM_bind, runM_get]
  simp only [h, and_self, if_true]
  rw [runM_bind, hit]
  simp

end STWS

set_option maxHeartbeats 2000000 in
/-- C1: the STWS correctness contract fails on the code.  For the
duplicate-free inputs `current = [1,2,3]`, `next = [2,3,1,4]` (parent
children exactly mirror `current`), `reconcile` returns normally after two
`insertBefore` calls, but the parent's children are `[2,3,1]` — node `4`
is never inserted — and the `current` array still holds `[1,2,3]`.  The
unverified index returned by `subsequenceIndex` when too few elements
remain after the match sends `fastPaths` down the full-subsequence path. -/
theorem c1_reconcile_not_correct :
    (STWS.reconcileSim [1, 2, 3] [2, 3, 1, 4]).fst = Except.ok ()
    ∧ (STWS.reconcileSim [1, 2, 3] [2, 3, 1, 4]).snd.dom.ops =
        [.insertBefore 2 (.node 1), .insertBefore 3 (.node 1)]
    ∧ (STWS.reconcileSim [1, 2, 3] [2, 3, 1, 4]).snd.dom.children = [2, 3, 1]
    ∧ (STWS.reconcileSim [1, 2, 3] [2, 3, 1, 4]).snd.dom.children ≠ [2, 3, 1, 4]
    ∧ (STWS.reconcileSim [1, 2, 3] [2, 3, 1, 4]).snd.cur ≠ [2, 3, 1, 4].map .node :=
  ⟨rfl, rfl, rfl, by decide, by decide⟩

/-- Intermediate states of the S1 run, used to evaluate the reconciler
one loop iteration at a time. -/
def c2M : List (STWS.JSVal × Int) :=
  [(.node 3, 1), (.node 2, 2), (.node 7, 3), (.node 6, 4), (.node 5, 5)]

def c2P : List STWS.JSVal := [.node 2, .node 3, .node 4, .node 5, .node 6]

def c2S0 : STWS.RS :=
  { dom := { children := [1, 2, 3, 4, 5, 6], ops := [] },
    cur := [.node 1, .node 2, .node 3, .node 4, .node 5, .node 6],
    nxt := [1, 3, 2, 7, 6, 5], currentEnd := 6, nextEnd := 6, start := 0, ins := 0,
    advancedDiff := false, lastCurrent := .null, lastNext := .null,
    nextIndexes := none, prevNodes := none }

def c2S1 : STWS.RS := { c2S0 with start := 1 }

def c2S2 : STWS.RS :=
  { c2S1 with advancedDiff := true, nextIndexes := some c2M, prevNodes := some c2P }

def c2S3 : STWS.RS :=
  { c2S2 with
    dom := { children := [1, 3, 2, 4, 5, 6], ops := [.insertBefore 3 (.node 2)] },
    cur := [.node 1, .node 3, .node 2, .node 4, .node 5, .node 6],
    start := 2, lastCurrent := .node 6, lastNext := .node 5 }

def c2S4 : STWS.RS := { c2S3 with start := 3 }

def c2S5 : STWS.RS :=
  { c2S4 with
    dom := { children := [1, 3, 2, 7, 5, 6],
             ops := [.insertBefore 3 (.node 2), .replaceChild 7 4] },
    cur := [.node 1, .node 3, .node 2, .node 7, .node 5, .node 6],
    start := 4 }

def c2S6 : STWS.RS :=
  { c2S5 with
    dom := { children := [1, 3, 2, 7, 6, 5],
             ops := [.insertBefore 3 (.node 2), .replaceChild 7 4,
                     .insertBefore 6 (.node 5)] },
    cur := [.node 1, .node 3, .node 2, .node 7, .node 6, .node 5],
    currentEnd := 5, nextEnd := 5, start := 5 }

set_option maxHeartbeats 2000000 in
theorem c2_iter1 : STWS.runM STWS.loopIter c2S0 = (Except.ok false, c2S1) := rfl

set_option maxHeartbeats 2000000 in
theorem c2_iter2 : STWS.runM STWS.loopIter c2S1 = (Except.ok false, c2S2) := rfl

set_option maxHeartbeats 2000000 in
theorem c2_iter3 : STWS.runM STWS.loopIter c2S2 = (Except.ok false, c2S3) := rfl

set_option maxHeartbeats 2000000 in
theorem c2_iter4 : STWS.runM STWS.loopIter c2S3 = (Except.ok false, c2S4) := rfl

set_option maxHeartbeats 2000000 in
theorem c2_iter5 : STWS.runM STWS.loopIter c2S4 = (Except.ok false, c2S5) := rfl

set_option maxHeartbeats 2000000 in
theorem c2_iter6 : STWS.runM STWS.loopIter c2S5 = (Except.ok false, c2S6) := rfl

set_option maxHeartbeats 2000000 in
/-- C2: scenario S1.  With `current = [a,b,c,d,e,f]` and
`next = [a,c,b,h,f,e]` (encoded `a..f = 1..6`, `h = 7`), `reconcile`
issues exactly three DOM mutations — the move of `c` before `b`, the
replacement of `d` by `h`, and the move of `f` before `e` — the parent's
children equal `next`, and the `current` array equals `next`. -/
theorem c2_s1_three_ops :
    (STWS.reconcileSim [1, 2, 3, 4, 5, 6] [1, 3, 2, 7, 6, 5]).fst = Except.ok ()
    ∧ (STWS.reconcileSim [1, 2, 3, 4, 5, 6] [1, 3, 2, 7, 6, 5]).snd.dom.ops =
        [.insertBefore 3 (.node 2), .replaceChild 7 4, .insertBefore 6 (.node 5)]
    ∧ (STWS.reconcileSim [1, 2, 3, 4, 5, 6] [1, 3, 2, 7, 6, 5]).snd.dom.children =
        [1, 3, 2, 7, 6, 5]
    ∧ (STWS.reconcileSim [1, 2, 3, 4, 5, 6] [1, 3, 2, 7, 6, 5]).snd.cur =
        [1, 3, 2, 7, 6, 5].map .node := by
  have hloop : STWS.runM (STWS.reconLoop 196) c2S0 = (Except.ok false, c2S6) := calc
    STWS.runM (STWS.reconLoop 196) c2S0
        = STWS.runM (STWS.reconLoop 195) c2S1 :=
          STWS.reconLoop_step 195 _ _ (by decide) c2_iter1
    _ = STWS.runM (STWS.reconLoop 194) c2S2 :=
          STWS.reconLoop_step 194 _ _ (by decide) c2_iter2
    _ = STWS.runM (STWS.reconLoop 193) c2S3 :=
          STWS.reconLoop_step 193 _ _ (by decide) c2_iter3
    _ = STWS.runM (STWS.reconLoop 192) c2S4 :=
          STWS.reconLoop_step 192 _ _ (by decide) c2_iter4
    _ = STWS.runM (STWS.reconLoop 191) c2S5 :=
          STWS.reconLoop_step 191 _ _ (by decide) c2_iter5
    _ = STWS.runM (STWS.reconLoop 190) c2S6 :=
          STWS.reconLoop_step 190 _ _ (by decide) c2_iter6
    _ = (Except.ok false, c2S6) := STWS.reconLoop_stop 190 _ (by decide)
  have hrun : STWS.reconcileSim [1, 2, 3, 4, 5, 6] [1, 3, 2, 7, 6, 5] =
      (Except.ok (), c2S6) := by
    show STWS.runM (STWS.reconcileM 196) c2S0 = (Except.ok (), c2S6)
    show STWS.runM (STWS.reconLoop 196 >>=
      fun fin => if fin = true then pure () else STWS.reconTail) c2S0 = (Except.ok (), c2S6)
    rw [STWS.runM_bind, hloop]
    rfl
  rw [hrun]
  exact ⟨rfl, rfl, rfl, rfl⟩

/-- C10: calling `reconcile` with an empty `current` and a non-empty
`next` always faults: the tail-insert path reads `current[-1].nextSibling`
(a member access on `undefined`) before issuing any DOM operation, so the
parent is left untouched and the operation log is empty. -/
theorem c10_empty_current_faults (dom0 next : List Nat) (h : next ≠ []) :
    (STWS.reconcileRun dom0 [] next).fst =
        Except.error "TypeError: cannot read nextSibling of undefined"
    ∧ (STWS.reconcileRun dom0 [] next).snd.dom.ops = []
    ∧ (STWS.reconcileRun dom0 [] next).snd.dom.children = dom0 := by
  obtain ⟨n, t, rfl⟩ : ∃ n t, next = n :: t := by
    cases next with
    | nil => exact absurd rfl h
    | cons n t => exact ⟨n, t, rfl⟩
  have hrun : STWS.reconcileRun dom0 [] (n :: t) =
      STWS.runM (STWS.reconcileM ((0 + (n :: t).length + 2) * (0 + (n :: t).length + 2)))
        { dom := { children := dom0, ops := [] }, cur := [], nxt := n :: t,
          currentEnd := 0, nextEnd := (n :: t).length, start := 0, ins := 0,
          advancedDiff := false, lastCurrent := .null, lastNext := .null,
          nextIndexes := none, prevNodes := none } := rfl
  rw [hrun]
  simp only [STWS.reconcileM]
  rw [STWS.runM_bind, STWS.reconLoop_stop _ _ (by simp)]
  have hne : ¬ ((0 : Int) = (t.length : Int) + 1) := by omega
  simp [STWS.runM, STWS.reconTail, STWS.mNextSibling, STWS.jsGet, hne,
    ExceptT.run, bind, ExceptT.bind, ExceptT.bindCont, ExceptT.mk,
    StateT.bind, get, getThe, MonadStateOf.get, StateT.get, pure, ExceptT.pure, StateT.pure,
    ExceptT.lift, StateT.run, liftM, monadLift, MonadLift.monadLift, StateT.lift,
    Functor.map, StateT.map, throw, throwThe, MonadExceptOf.throw]

/-- Closed instance of the empty-`current` fault: reconciling `[]`
against `[5]` over an empty parent faults before any DOM operation. -/
theorem c10_empty_current_faults_witness :
    ([5] : List Nat) ≠ []
    ∧ ((STWS.reconcileRun [] [] [5]).fst =
        Except.error "TypeError: cannot read nextSibling of undefined"
      ∧ (STWS.reconcileRun [] [] [5]).snd.dom.ops = []
      ∧ (STWS.reconcileRun [] [] [5]).snd.dom.children = []) :=
  ⟨by decide, c10_empty_current_faults [] [5] (by decide)⟩


namespace RX

/-! Shallow embedding of the reactive graph engine of
packages/reactivity/src/observable.ts.  Observers and sources are stored
in id-indexed stores; computation functions, equality predicates and
cleanups are abstracted by their observable outcomes (`FnRes`, boolean
predicates, counters).  Subscription slot indices are elided: a
subscription keeps the primary back-edge `obs1` and the vector `obsL`,
and removal keeps the swap-with-last shape of `SourceSub.disconnect`. -/

abbrev Val := Nat
abbrev ObsId := Nat
abbrev SrcId := Nat

/-- State bits from enums.ts. -/
def stStale : Nat := 1
def stPending : Nat := 2
def stPendingDisposal : Nat := 4
def stRunning : Nat := 8
def stDisposed : Nat := 16
def stUpstreamable : Nat := stPending ||| stPendingDisposal
def stLiftable : Nat := stStale ||| stPending ||| stPendingDisposal
def stAll : Nat := 31
def stPendingStates : Nat := 14

/-- Observer kinds from enums.ts. -/
inductive OType where
  | memo
  | observer
  | renderEffect
  | afterEffect
  | computed
  | root
deriving DecidableEq, Repr

/-- `type & ObserverType.EffectsQueue`. -/
def OType.isEffect : OType → Bool
  | .renderEffect => true
  | .afterEffect => true
  | _ => false

/-- Errors crossing the host boundary. -/
inductive EErr where
  | user (e : Nat)
  | circular
  | nullOwner
  | runaway
  | fuel
deriving DecidableEq, Repr

/-- Outcome of one invocation of a computation function (the host
function itself is opaque; the engine only sees its value or exception). -/
inductive FnRes where
  | val (v : Val)
  | err (e : Nat)
deriving DecidableEq, Repr

/-- Endpoint owning a subscription: a `Source` or an observer (memo). -/
inductive Endpoint where
  | src (s : SrcId)
  | ob (o : ObsId)
deriving DecidableEq, Repr

/-- A `SourceSub`: the scalar primary back-edge and the vector of
additional back-edges (each nullable, as in the source). -/
structure SubRec where
  obs1 : Option ObsId
  obsL : Option (List ObsId)

/-- An `Observer` node record. -/
structure ObsRec where
  type : OType
  state : Nat
  hasFn : Bool
  value : Val
  eq : Option (Val → Val → Bool)
  age : Nat
  owner : Option ObsId
  owned : List ObsId
  cleanups : Nat
  hasErrHandler : Bool
  srcs : List Endpoint
  deps : List (Option ObsId)
  depSlot : Nat
  depsCount : Nat
  sub : Option SubRec

/-- A `Source` record. -/
structure SrcRec where
  value : Val
  pending : Option Val
  sub : Option SubRec
  locked : Nat
  eq : Option (Val → Val → Bool)

/-- The reusable queue with a logical size (class `Queue`). -/
structure MQueue (α : Type) where
  items : List (Option α)
  size : Nat
deriving DecidableEq, Repr

def MQueue.empty {α : Type} : MQueue α := ⟨[], 0⟩

/-- Set position `i`, extending the backing array when needed. -/
def listSetO {α : Type} (l : List (Option α)) (i : Nat) (v : Option α) : List (Option α) :=
  if i < l.length then l.set i v
  else l ++ List.replicate (i - l.length) none ++ [v]

/-- `Queue.add`: `items[size++] = item`. -/
def MQueue.add {α : Type} (q : MQueue α) (x : α) : MQueue α :=
  { items := listSetO q.items q.size (some x), size := q.size + 1 }

/-- First index of `x`, or `none`. -/
def listIndexOf {α : Type} [DecidableEq α] : List α → α → Option Nat
  | [], _ => none
  | y :: t, x => if y = x then some 0 else (listIndexOf t x).map (· + 1)

/-- `Queue.itemIndex`: `items.indexOf(item)` over the backing array. -/
def MQueue.itemIndex {α : Type} [DecidableEq α] (q : MQueue α) (x : α) : Int :=
  match listIndexOf q.items (some x) with
  | some k => (k : Int)
  | none => -1

/-- `Queue.remove`: `items.splice(itemIndex, 1)` — the logical size is not
adjusted, exactly as in the source. -/
def MQueue.remove {α : Type} (q : MQueue α) (i : Int) : MQueue α :=
  if 0 ≤ i ∧ i.toNat < q.items.length then
    { q with items := (q.items.take i.toNat) ++ (q.items.drop (i.toNat + 1)) }
  else q

/-- Inner loop of `Queue.run` (generic in the processing function and the
error-handling mechanism, exactly like the `Queue` class, whose `fn` is
injected at construction): each slot is nulled and then `fn` runs on the
raw slot content with no null check, a throwing step routes through the
handler, a re-raising handler aborts the flush leaving the logical size
untouched, and a completed flush resets the size to `0`. -/
def MQueue.runFrom {α σ ε : Type} (step : Option α → σ → Except ε σ)
    (handle : ε → σ → Except ε σ) :
    Nat → Nat → MQueue α → σ → Option ε × MQueue α × σ
  | 0, _, q, s => (none, { q with size := 0 }, s)
  | Nat.succ n, i, q, s =>
    if i < q.size then
      let item := (q.items.get? i).join
      let q1 : MQueue α := { q with items := listSetO q.items i none }
      match step item s with
      | .ok s1 => MQueue.runFrom step handle n (i + 1) q1 s1
      | .error e =>
        match handle e s with
        | .ok s2 => MQueue.runFrom step handle n (i + 1) q1 s2
        | .error e2 => (some e2, q1, s)
    else (none, { q with size := 0 }, s)

/-- `Queue.run`. -/
def MQueue.runWith {α σ ε : Type} (step : Option α → σ → Except ε σ)
    (handle : ε → σ → Except ε σ) (q : MQueue α) (s : σ) :
    Option ε × MQueue α × σ :=
  MQueue.runFrom step handle (q.size + 1) 0 q s

/-- The module-level mutable state of observable.ts: the node stores, the
tracking globals, the four queues, the pending-effects set, plus
instrumentation logs (executed computations, executed cleanups, invoked
error handlers). -/
structure GState where
  obs : ObsId → ObsRec
  srcs : SrcId → SrcRec
  time : Nat
  isRunning : Bool
  pendingObs : Option ObsId
  owner : Option ObsId
  listener : Option ObsId
  changes : MQueue SrcId
  updates : MQueue ObsId
  disposes : MQueue ObsId
  effects : MQueue ObsId
  pendingEffects : Option (List ObsId)
  runLog : List ObsId
  cleanupLog : List (ObsId × Bool)
  handlerLog : List (ObsId × EErr)

def setObs (st : GState) (o : ObsId) (r : ObsRec) : GState :=
  { st with obs := Function.update st.obs o r }

def setSrc (st : GState) (s : SrcId) (r : SrcRec) : GState :=
  { st with srcs := Function.update st.srcs s r }

/-- `resetObserver(observer, flags)`. -/
def resetObserver (st : GState) (o : ObsId) (flags : Nat) : GState :=
  let r := st.obs o
  setObs st o { r with state := r.state &&& (stAll ^^^ flags), depSlot := 0, depsCount := 0 }

/-- `isPendingEffect(observer)`. -/
def isPendingEffect (st : GState) (o : ObsId) : Bool :=
  match st.pendingEffects with
  | some l => l.contains o
  | none => false

/-- `markForDisposal(children, pending)`. -/
def markForDisposal : Nat → GState → List ObsId → Bool → GState
  | 0, st, _, _ => st
  | _, st, [], _ => st
  | Nat.succ f, st, c :: rest, pend =>
    let r := st.obs c
    let st1 :=
      if pend then
        if r.state &&& stDisposed = 0 then
          setObs st c { r with state := r.state ||| stPendingDisposal }
        else st
      else setObs st c { r with age := st.time, state := stDisposed }
    let st2 := markForDisposal f st1 (st1.obs c).owned pend
    markForDisposal f st2 rest pend

/-- Mark an effect pending from a previous tick as stale
(`stalePendingEffect`). -/
def stalePendingEffectMark (f : Nat) (st : GState) (o : ObsId) : GState :=
  let r := st.obs o
  if r.state &&& stStale = 0 then
    if r.state = stPending then
      let st1 := setObs st o { r with state := stStale }
      if r.owned ≠ [] then markForDisposal f st1 r.owned false else st1
    else if r.state &&& stPendingDisposal ≠ 0 then
      let st1 := setObs st o { r with state := r.state ||| stStale }
      if r.owned ≠ [] then markForDisposal f st1 r.owned false else st1
    else st
  else st

/-- The three marking kernels, selected by `getStateFn`. -/
inductive MarkKind where
  | mstale
  | mpending
  | mstalePending
deriving DecidableEq, Repr

/-- `getStateFn(observerType, onChange, dirty)`. -/
def getStateFn (t : OType) (onChange dirty : Bool) : MarkKind :=
  if t = .computed then .mstale
  else if dirty then .mstalePending
  else if onChange then .mpending
  else .mstale

/-- Iteration order of `markObservers`: the primary back-edge first, then
the vector. -/
def subList (s : SubRec) : List ObsId :=
  (match s.obs1 with | some o => [o] | none => []) ++ s.obsL.getD []

mutual

/-- `stale(observer)`. -/
def staleMark : Nat → GState → ObsId → GState
  | 0, st, _ => st
  | Nat.succ f, st, o =>
    let r := st.obs o
    if r.age < st.time then
      let st1 := setObs st o { r with age := st.time }
      let isEff := r.type.isEffect
      if isEff ∧ isPendingEffect st1 o then stalePendingEffectMark f st1 o
      else
        let r1 := st1.obs o
        let st2 := setObs st1 o { r1 with state := r1.state ||| stStale }
        let st3 :=
          if isEff then { st2 with effects := st2.effects.add o }
          else if r.type ≠ .computed then { st2 with updates := st2.updates.add o }
          else st2
        prepareDownstream f st3 o r.eq.isSome
    else st

/-- `pending(observer)`. -/
def pendingMark : Nat → GState → ObsId → GState
  | 0, st, _ => st
  | Nat.succ f, st, o =>
    let r := st.obs o
    if r.age < st.time then
      let isEff := r.type.isEffect
      if ¬ (isEff ∧ isPendingEffect st o ∧ r.state = stPendingDisposal) then
        let st1 := setObs st o
          { r with state := r.state ||| stPending,
                   deps := listSetO r.deps r.depsCount st.pendingObs,
                   depsCount := r.depsCount + 1 }
        let st2 :=
          if isEff then { st1 with effects := st1.effects.add o }
          else if r.type ≠ .computed then { st1 with updates := st1.updates.add o }
          else st1
        prepareDownstream f st2 o true
      else st
    else st

/-- `stalePending(observer)`. -/
def stalePendingMark : Nat → GState → ObsId → GState
  | 0, st, _ => st
  | Nat.succ f, st, o =>
    let r := st.obs o
    if r.state &&& stPending ≠ 0 then
      let st1 := setObs st o { r with state := stStale }
      if r.age < st1.time then
        let st2 := setObs st1 o { (st1.obs o) with age := st1.time }
        if r.eq.isNone then markDownstream f st2 o false true else st2
      else st1
    else st

/-- `prepareDownstream(observer, pending)`. -/
def prepareDownstream : Nat → GState → ObsId → Bool → GState
  | 0, st, _, _ => st
  | Nat.succ f, st, o, pend =>
    let r := st.obs o
    if r.eq.isSome then
      let saved := st.pendingObs
      let st1 := markDownstream f { st with pendingObs := some o } o true false
      { st1 with pendingObs := saved }
    else markDownstream f st o pend false

/-- `markDownstream(observer, onChange, dirty)`. -/
def markDownstream : Nat → GState → ObsId → Bool → Bool → GState
  | 0, st, _, _, _ => st
  | Nat.succ f, st, o, onChange, dirty =>
    let r := st.obs o
    let st1 := if r.owned ≠ [] then markForDisposal f st r.owned (onChange ∧ ¬ dirty) else st
    match r.sub with
    | none => st1
    | some sub => markObsList f st1 (subList sub) (getStateFn r.type onChange dirty)

/-- `markObservers(sub, stateFn)`, flattened over `obs1 :: obs`. -/
def markObsList : Nat → GState → List ObsId → MarkKind → GState
  | 0, st, _, _ => st
  | _, st, [], _ => st
  | Nat.succ f, st, d :: rest, kind =>
    let st1 :=
      match kind with
      | .mstale => staleMark f st d
      | .mpending => pendingMark f st d
      | .mstalePending => stalePendingMark f st d
    markObsList f st1 rest kind

end

/-- Swap-with-last removal of the first back-edge for `to_` inside the
vector side of a subscription (`SourceSub.disconnect`, slots elided). -/
def swapRemove (l : List ObsId) (o : ObsId) : List ObsId :=
  match listIndexOf l o with
  | none => l
  | some i =>
    match l.getLast? with
    | none => l
    | some last =>
      if i + 1 = l.length then l.dropLast
      else (l.set i last).dropLast

/-- Remove observer `o` from a subscription. -/
def subRemove (sub : SubRec) (o : ObsId) : SubRec :=
  if sub.obs1 = some o then { sub with obs1 := none }
  else
    match sub.obsL with
    | none => sub
    | some l => { sub with obsL := some (swapRemove l o) }

/-- `SourceSub.connect()` for the listener `to_`, together with the
observer-side bookkeeping (`to.src1`/`to.srcs`, recorded as the endpoint
list).  The deduplication checks only the primary back-edge (when the
vector does not exist yet) or the last pushed back-edge, as in the
source. -/
def subConnect (sub : SubRec) (to_ : ObsId) : SubRec × Bool :=
  match sub.obs1 with
  | none => ({ sub with obs1 := some to_ }, true)
  | some o1 =>
    match sub.obsL with
    | none =>
      if o1 = to_ then (sub, false)
      else ({ sub with obsL := some [to_] }, true)
    | some l =>
      if l.getLast? = some to_ then (sub, false)
      else ({ sub with obsL := some (l ++ [to_]) }, true)

/-- Attach the current listener to the subscription owned by endpoint
`e`, creating the subscription if needed. -/
def connectTo (st : GState) (e : Endpoint) : GState :=
  match st.listener with
  | none => st
  | some to_ =>
    let sub :=
      match e with
      | .src s => (st.srcs s).sub.getD ⟨none, none⟩
      | .ob o => (st.obs o).sub.getD ⟨none, none⟩
    let (sub1, attached) := subConnect sub to_
    let st1 :=
      match e with
      | .src s => setSrc st s { st.srcs s with sub := some sub1 }
      | .ob o => setObs st o { st.obs o with sub := some sub1 }
    if attached then
      let r := st1.obs to_
      setObs st1 to_ { r with srcs := r.srcs ++ [e] }
    else st1

/-- Remove `o` from the subscriptions of all its input endpoints. -/
def disconnectSrcs (st : GState) (o : ObsId) : List Endpoint → GState
  | [] => st
  | e :: rest =>
    let st1 :=
      match e with
      | .src s =>
        match (st.srcs s).sub with
        | none => st
        | some sub => setSrc st s { st.srcs s with sub := some (subRemove sub o) }
      | .ob d =>
        match (st.obs d).sub with
        | none => st
        | some sub => setObs st d { st.obs d with sub := some (subRemove sub o) }
    disconnectSrcs st1 o rest

mutual

/-- `disconnect(observer, final)`: run cleanups, clear the context, hard
dispose owned observers, disconnect from all inputs. -/
def disconnect : Nat → GState → ObsId → Bool → GState
  | 0, st, _, _ => st
  | Nat.succ f, st, o, final =>
    let r := st.obs o
    let st1 :=
      if r.cleanups ≠ 0 then
        { st with cleanupLog := st.cleanupLog ++ List.replicate r.cleanups (o, final) }
      else st
    let st2 := setObs st1 o { st1.obs o with cleanups := 0, hasErrHandler := false }
    let st3 := disposeList f st2 r.owned
    let st4 := setObs st3 o { st3.obs o with owned := [] }
    let st5 := disconnectSrcs st4 o r.srcs
    setObs st5 o { st5.obs o with srcs := [] }

def disposeList : Nat → GState → List ObsId → GState
  | 0, st, _ => st
  | _, st, [] => st
  | Nat.succ f, st, c :: rest => disposeList f (disposeOb f st c) rest

/-- `dispose(observer)`. -/
def disposeOb : Nat → GState → ObsId → GState
  | 0, st, _ => st
  | Nat.succ f, st, o =>
    let r := st.obs o
    let st1 := setObs st o { r with hasFn := false, sub := none, deps := [] }
    let st2 := disconnect f st1 o true
    resetObserver st2 o stAll

end

/-- Sequencing helper for state-preserving exceptions: JavaScript
exceptions unwind without rolling back the mutated global state. -/
def bindE (r : Option EErr × GState) (f : GState → Option EErr × GState) :
    Option EErr × GState :=
  match r with
  | (some e, st) => (some e, st)
  | (none, st) => f st

mutual

/-- `updateNode(observer)`. -/
def updateNode : Nat → (ObsId → Val → FnRes) → GState → ObsId →
    Option EErr × GState
  | 0, _, st, _ => (some .fuel, st)
  | Nat.succ f, fns, st, o =>
    let r := st.obs o
    if r.state &&& stDisposed ≠ 0 then (none, st)
    else if r.state &&& stPending ≠ 0 then
      let r1 := { r with deps := listSetO r.deps r.depSlot none, depSlot := r.depSlot + 1 }
      let st1 := setObs st o r1
      if r1.depSlot = r1.depsCount then (none, resetObserver st1 o stPendingStates)
      else (none, st1)
    else if r.state &&& stStale ≠ 0 then
      if r.state &&& stPendingDisposal ≠ 0 then liftObserver f fns st o
      else
        match r.eq with
        | some eqf =>
          match runObserver f fns st o with
          | (some e, st1, _) => (some e, st1)
          | (none, st1, current) =>
            if ¬ eqf current ((st1.obs o).value) then
              (none, markDownstream f st1 o false true)
            else (none, st1)
        | none =>
          match runObserver f fns st o with
          | (e?, st1, _) => (e?, st1)
    else (none, st)

/-- `runObserver(observer)`: sets the tracking globals and the `Running`
state, disconnects the inputs, runs the computation, stores the value,
resets the state and restores the globals.  A thrown computation leaves
the value, the `Running` state and the globals exactly as they were at
the throw, as in the source (no `try`/`finally`).  Returns the previous
value. -/
def runObserver : Nat → (ObsId → Val → FnRes) → GState → ObsId →
    Option EErr × GState × Val
  | 0, _, st, _ => (some .fuel, st, 0)
  | Nat.succ f, fns, st, o =>
    let r := st.obs o
    let value := r.value
    let savedOwner := st.owner
    let savedListener := st.listener
    let st1 := { st with owner := some o, listener := some o }
    let st2 := setObs st1 o { st1.obs o with state := stRunning }
    let st3 := disconnect f st2 o false
    let st4 := { st3 with runLog := st3.runLog ++ [o] }
    match fns o value with
    | .err e => (some (.user e), st4, value)
    | .val v =>
      let st5 := setObs st4 o { st4.obs o with value := v }
      let st6 := resetObserver st5 o stAll
      (none, { st6 with owner := savedOwner, listener := savedListener }, value)

/-- `liftObserver(observer)`. -/
def liftObserver : Nat → (ObsId → Val → FnRes) → GState → ObsId →
    Option EErr × GState
  | 0, _, st, _ => (some .fuel, st)
  | Nat.succ f, fns, st, o =>
    bindE
      (if (st.obs o).state &&& stUpstreamable ≠ 0 then applyUpstream f fns st o
       else (none, st))
      fun st1 =>
    bindE
      (if (st1.obs o).state &&& stStale ≠ 0 then updateNode f fns st1 o
       else (none, st1))
      fun st2 =>
    (none, resetObserver st2 o stAll)

/-- `applyUpstream(observer)`. -/
def applyUpstream : Nat → (ObsId → Val → FnRes) → GState → ObsId →
    Option EErr × GState
  | 0, _, st, _ => (some .fuel, st)
  | Nat.succ f, fns, st, o =>
    bindE
      (let r := st.obs o
       if r.state &&& stPendingDisposal ≠ 0 then
         match r.owner with
         | none => (some .nullOwner, st)
         | some w =>
           bindE
             (if (st.obs w).state &&& stLiftable ≠ 0 then liftObserver f fns st w
              else (none, st))
             fun st1 =>
           let r1 := st1.obs o
           (none, setObs st1 o { r1 with state := r1.state &&& (stAll ^^^ stPendingDisposal) })
       else (none, st))
      fun st2 =>
    let r2 := st2.obs o
    if r2.state &&& stPending ≠ 0 then
      bindE (liftDeps f fns st2 o r2.depSlot (r2.depsCount - r2.depSlot)) fun st3 =>
      let r3 := st3.obs o
      (none, setObs st3 o { r3 with state := r3.state &&& (stAll ^^^ stPending) })
    else (none, st2)

/-- The loop over pending deps inside `applyUpstream`. -/
def liftDeps : Nat → (ObsId → Val → FnRes) → GState → ObsId → Nat → Nat →
    Option EErr × GState
  | 0, _, st, _, _, _ => (some .fuel, st)
  | Nat.succ _, _, st, _, _, 0 => (none, st)
  | Nat.succ f, fns, st, o, i, Nat.succ rest =>
    let dep := ((st.obs o).deps.get? i).join
    bindE
      (match dep with
       | some d => liftObserver f fns st d
       | none => (none, st))
      fun st1 =>
    let r1 := st1.obs o
    liftDeps f fns (setObs st1 o { r1 with deps := listSetO r1.deps i none }) o (i + 1) rest

end

/-- `Observer.call()`: update a stale computed in place, lift when
needed, raise `CircularDependency` on a tracked self-read of a `Running`
observer whose age equals the current tick, connect, return the value. -/
def observerCall : Nat → (ObsId → Val → FnRes) → GState → ObsId →
    Option EErr × GState × Val
  | 0, _, st, _ => (some .fuel, st, 0)
  | Nat.succ f, fns, st, o =>
    let r := st.obs o
    match (if r.type = .computed ∧ r.state &&& stStale ≠ 0 then updateNode f fns st o
           else (none, st)) with
    | (some e, st1) => (some e, st1, 0)
    | (none, st1) =>
      match st1.listener with
      | none => (none, st1, (st1.obs o).value)
      | some _ =>
        let stateC := (st1.obs o).state
        match (if stateC &&& stLiftable ≠ 0 then liftObserver f fns st1 o
               else (none, st1)) with
        | (some e, st2) => (some e, st2, 0)
        | (none, st2) =>
          if (st2.obs o).age = st2.time ∧ stateC = stRunning then
            (some .circular, st2, 0)
          else
            let st3 := if stateC &&& stDisposed = 0 then connectTo st2 (.ob o) else st2
            (none, st3, (st3.obs o).value)

/-- Walk of `lookup($$Owner, ERROR)`: nearest owner carrying an error
handler. -/
def ownerChainHandler : Nat → GState → Option ObsId → Option ObsId
  | 0, _, _ => none
  | _, _, none => none
  | Nat.succ f, st, some w =>
    if (st.obs w).hasErrHandler then some w
    else ownerChainHandler f st (st.obs w).owner

/-- `handleError(e)`: run the handlers of the nearest owner carrying
them, or re-raise. -/
def handleError (f : Nat) (st : GState) (e : EErr) : Option EErr × GState :=
  match ownerChainHandler f st st.owner with
  | some w => (none, { st with handlerLog := st.handlerLog ++ [(w, e)] })
  | none => (some e, st)

/-- One item of the `$$Updates` queue flush: `try { updateNode(item) }
catch (err) { handleError(err) }`. -/
def updatesQueueStep (f : Nat) (fns : ObsId → Val → FnRes) (st : GState)
    (o : ObsId) : Option EErr × GState :=
  match updateNode f fns st o with
  | (none, st1) => (none, st1)
  | (some e, st1) => handleError f st1 e

/-- `applyDataChange(src)`: commit the staged value and mark the direct
subscribers stale. -/
def applyDataChange (f : Nat) (st : GState) (s : SrcId) : GState :=
  let src := st.srcs s
  let st1 := setSrc st s { src with value := src.pending.getD src.value, pending := none }
  match src.sub with
  | none => st1
  | some sub => markObsList f st1 (subList sub) .mstale

/-- `$$Changes.run()`: the live-size flush over the state-resident
queue. -/
def runChangesFrom : Nat → Nat → GState → Option EErr × GState
  | 0, _, st => (some .fuel, st)
  | Nat.succ f, i, st =>
    if i < st.changes.size then
      let item := (st.changes.items.get? i).join
      let st1 :=
        { st with changes := { st.changes with items := listSetO st.changes.items i none } }
      match item with
      | none =>
        match handleError f st1 .nullOwner with
        | (none, st2) => runChangesFrom f (i + 1) st2
        | (some e, st2) => (some e, st2)
      | some s => runChangesFrom f (i + 1) (applyDataChange f st1 s)
    else (none, { st with changes := { st.changes with size := 0 } })

/-- `$$Updates.run()`. -/
def runUpdatesFrom : Nat → (ObsId → Val → FnRes) → Nat → GState →
    Option EErr × GState
  | 0, _, _, st => (some .fuel, st)
  | Nat.succ f, fns, i, st =>
    if i < st.updates.size then
      let item := (st.updates.items.get? i).join
      let st1 :=
        { st with updates := { st.updates with items := listSetO st.updates.items i none } }
      match item with
      | none => runUpdatesFrom f fns (i + 1) st1
      | some o =>
        match updatesQueueStep f fns st1 o with
        | (none, st2) => runUpdatesFrom f fns (i + 1) st2
        | (some e, st2) => (some e, st2)
    else (none, { st with updates := { st.updates with size := 0 } })

/-- `$$Disposes.run()`. -/
def runDisposesFrom : Nat → Nat → GState → Option EErr × GState
  | 0, _, st => (some .fuel, st)
  | Nat.succ f, i, st =>
    if i < st.disposes.size then
      let item := (st.disposes.items.get? i).join
      let st1 :=
        { st with disposes := { st.disposes with items := listSetO st.disposes.items i none } }
      match item with
      | none => runDisposesFrom f (i + 1) st1
      | some o => runDisposesFrom f (i + 1) (disposeOb f st1 o)
    else (none, { st with disposes := { st.disposes with size := 0 } })

/-- First-occurrence deduplication (`new Set(...)` insertion order). -/
def listDedup : List ObsId → List ObsId → List ObsId
  | [], acc => acc
  | x :: t, acc => if acc.contains x then listDedup t acc else listDedup t (acc ++ [x])

/-- Sequencing helper carrying the collected after-effects. -/
def bindEA (r : Option EErr × GState × List ObsId)
    (f : GState → List ObsId → Option EErr × GState) : Option EErr × GState :=
  match r with
  | (some e, st, _) => (some e, st)
  | (none, st, after) => f st after

/-- `savePendingEffects()`. -/
def savePendingEffects (st : GState) : GState :=
  let eff := (st.effects.items.take st.effects.size).filterMap id
  let pe :=
    match st.pendingEffects with
    | none => listDedup eff []
    | some l => listDedup eff l
  { st with pendingEffects := some pe, effects := { st.effects with size := 0 } }

mutual

/-- `runQueues()`. -/
def runQueues : Nat → (ObsId → Val → FnRes) → GState → Option EErr × GState
  | 0, _, st => (some .fuel, st)
  | Nat.succ f, fns, st =>
    let running := st.isRunning
    let st0 := { st with isRunning := true, disposes := { st.disposes with size := 0 } }
    bindE (runQueuesLoop f fns 0 st0) fun st1 =>
    bindE
      (if st1.effects.size > 0 ∨ st1.pendingEffects.isSome then runEffects f fns st1
       else (none, st1))
      fun st2 =>
    (none, { st2 with isRunning := running })

def runQueuesLoop : Nat → (ObsId → Val → FnRes) → Nat → GState →
    Option EErr × GState
  | 0, _, _, st => (some .fuel, st)
  | Nat.succ f, fns, count, st =>
    if st.changes.size > 0 ∨ st.updates.size > 0 ∨ st.disposes.size > 0 then
      let st1 := if count > 0 then { st with time := st.time + 1 } else st
      bindE (runChangesFrom f 0 st1) fun st2 =>
      bindE (runUpdatesFrom f fns 0 st2) fun st3 =>
      bindE (runDisposesFrom f 0 st3) fun st4 =>
      if count + 1 > 100000 then (some .runaway, st4)
      else
        let st5 :=
          if st4.effects.size > 0 ∧ (st4.changes.size > 0 ∨ st4.updates.size > 0) then
            savePendingEffects st4
          else st4
        runQueuesLoop f fns (count + 1) st5
    else (none, st)

/-- `runEffects()`. -/
def runEffects : Nat → (ObsId → Val → FnRes) → GState → Option EErr × GState
  | 0, _, st => (some .fuel, st)
  | Nat.succ f, fns, st =>
    bindEA
      (match st.pendingEffects with
       | some l => effectsDispatchList f fns l [] { st with pendingEffects := none }
       | none => (none, st, []))
      fun st1 after1 =>
    bindEA
      (if st1.effects.size > 0 then effectsDispatchQueue f fns 0 after1 st1
       else (none, st1, after1))
      fun st2 after2 =>
    bindE (runAfterEffects f fns after2 st2) fun st3 =>
    bindE
      (if st3.disposes.size > 0 then runDisposesFrom f 0 st3 else (none, st3))
      fun st4 =>
    if st4.changes.size > 0 ∨ st4.updates.size > 0 then
      runQueues f fns { st4 with time := st4.time + 1 }
    else if st4.effects.size > 0 then
      runEffects f fns { st4 with time := st4.time + 1 }
    else (none, st4)

/-- Dispatch one batch of effect observers (the pending set): render
effects run immediately, after-effects are collected. -/
def effectsDispatchList : Nat → (ObsId → Val → FnRes) → List ObsId →
    List ObsId → GState → Option EErr × GState × List ObsId
  | 0, _, _, after, st => (some .fuel, st, after)
  | _, _, [], after, st => (none, st, after)
  | Nat.succ f, fns, o :: rest, after, st =>
    if (st.obs o).type = .renderEffect then
      match updateNode f fns st o with
      | (none, st1) => effectsDispatchList f fns rest after st1
      | (some e, st1) =>
        match handleError f st1 e with
        | (none, st2) => effectsDispatchList f fns rest after st2
        | (some e2, st2) => (some e2, st2, after)
    else effectsDispatchList f fns rest (after ++ [o]) st

/-- Dispatch the live `$$Effects` queue. -/
def effectsDispatchQueue : Nat → (ObsId → Val → FnRes) → Nat → List ObsId →
    GState → Option EErr × GState × List ObsId
  | 0, _, _, after, st => (some .fuel, st, after)
  | Nat.succ f, fns, i, after, st =>
    if i < st.effects.size then
      match (st.effects.items.get? i).join with
      | none => effectsDispatchQueue f fns (i + 1) after st
      | some o =>
        if (st.obs o).type = .renderEffect then
          match updateNode f fns st o with
          | (none, st1) => effectsDispatchQueue f fns (i + 1) after st1
          | (some e, st1) =>
            match handleError f st1 e with
            | (none, st2) => effectsDispatchQueue f fns (i + 1) after st2
            | (some e2, st2) => (some e2, st2, after)
        else effectsDispatchQueue f fns (i + 1) (after ++ [o]) st
    else (none, { st with effects := { st.effects with size := 0 } }, after)

/-- Run the collected after-effects. -/
def runAfterEffects : Nat → (ObsId → Val → FnRes) → List ObsId → GState →
    Option EErr × GState
  | 0, _, _, st => (some .fuel, st)
  | _, _, [], st => (none, st)
  | Nat.succ f, fns, o :: rest, st =>
    match updateNode f fns st o with
    | (none, st1) => runAfterEffects f fns rest st1
    | (some e, st1) =>
      match handleError f st1 e with
      | (none, st2) => runAfterEffects f fns rest st2
      | (some e2, st2) => (some e2, st2)

end

/-- `event()`. -/
def event (f : Nat) (fns : ObsId → Val → FnRes) (st : GState) :
    Option EErr × GState :=
  let savedOwner := st.owner
  let st1 := { st with updates := { st.updates with size := 0 }, time := st.time + 1 }
  match runQueues f fns st1 with
  | (e?, st2) => (e?, { st2 with isRunning := false, listener := none, owner := savedOwner })

/-- `Source.current()`. -/
def sourceCurrent (st : GState) (s : SrcId) : GState × Val :=
  let st1 := connectTo st (.src s)
  (st1, (st1.srcs s).value)

/-- `Source.next(value)`. -/
def sourceNext (f : Nat) (fns : ObsId → Val → FnRes) (st : GState) (s : SrcId)
    (v : Val) : Option EErr × GState × Val :=
  let src := st.srcs s
  if src.locked > 0 then
    (none, setSrc st s { src with pending := some v }, v)
  else if st.isRunning then
    let st1 := if src.pending = none then { st with changes := st.changes.add s } else st
    (none, setSrc st1 s { st1.srcs s with pending := some v }, v)
  else if src.sub.isSome then
    let st1 := setSrc st s { src with pending := some v }
    let st2 := { st1 with changes := st1.changes.add s }
    match event f fns st2 with
    | (e?, st3) => (e?, st3, v)
  else (none, setSrc st s { src with value := v }, v)

/-- `Source.lock()`. -/
def sourceLock (st : GState) (s : SrcId) : GState :=
  let src := st.srcs s
  let st1 := setSrc st s { src with locked := src.locked + 1 }
  if st1.isRunning then
    let idx := st1.changes.itemIndex s
    if idx ≠ -1 then { st1 with changes := st1.changes.remove idx } else st1
  else st1

/-- `Source.unlock()`. -/
def sourceUnlock (f : Nat) (fns : ObsId → Val → FnRes) (st : GState)
    (s : SrcId) : Option EErr × GState :=
  let src := st.srcs s
  if src.locked = 0 then (none, st)
  else
    let st1 := setSrc st s { src with locked := src.locked - 1 }
    if src.locked - 1 = 0 ∧ src.pending.isSome then
      let st2 := { st1 with changes := st1.changes.add s }
      if ¬ st2.isRunning then event f fns st2 else (none, st2)
    else (none, st1)

/-- `Source.call(value)` in its writer form. -/
def sourceWrite (f : Nat) (fns : ObsId → Val → FnRes) (st : GState) (s : SrcId)
    (v : Val) : Option EErr × GState × Val :=
  let src := st.srcs s
  let lastValue := src.pending.getD src.value
  match src.eq with
  | none => sourceNext f fns st s v
  | some eqf =>
    if ¬ eqf lastValue v then sourceNext f fns st s v else (none, st, lastValue)

/-! Frame lemmas: which parts of the state each operation can touch. -/

/-- The queue-and-log footprint used by the claims. -/
def QFrame (a b : GState) : Prop :=
  a.updates = b.updates ∧ a.effects = b.effects ∧ a.changes = b.changes ∧
    a.runLog = b.runLog

/-- Agreement on the observer fields that marking and routing read. -/
def ObsShallowEq (a b : ObsRec) : Prop :=
  a.state = b.state ∧ a.value = b.value ∧ a.age = b.age ∧ a.owner = b.owner ∧
    a.hasErrHandler = b.hasErrHandler

theorem QFrame.qrefl (a : GState) : QFrame a a := ⟨rfl, rfl, rfl, rfl⟩

theorem QFrame.qtrans {a b c : GState} (h1 : QFrame a b) (h2 : QFrame b c) :
    QFrame a c :=
  ⟨h1.1.trans h2.1, h1.2.1.trans h2.2.1, h1.2.2.1.trans h2.2.2.1,
    h1.2.2.2.trans h2.2.2.2⟩

theorem ObsShallowEq.srefl (a : ObsRec) : ObsShallowEq a a :=
  ⟨rfl, rfl, rfl, rfl, rfl⟩

theorem ObsShallowEq.strans {a b c : ObsRec} (h1 : ObsShallowEq a b)
    (h2 : ObsShallowEq b c) : ObsShallowEq a c :=
  ⟨h1.1.trans h2.1, h1.2.1.trans h2.2.1, h1.2.2.1.trans h2.2.2.1,
    h1.2.2.2.1.trans h2.2.2.2.1, h1.2.2.2.2.trans h2.2.2.2.2⟩

/-- Disconnecting from the input endpoints only rewrites subscription
vectors: queues, logs, and the shallow observer fields are untouched. -/
theorem disconnectSrcs_frame (eps : List Endpoint) : ∀ st o,
    QFrame (disconnectSrcs st o eps) st
    ∧ ∀ d, ObsShallowEq ((disconnectSrcs st o eps).obs d) (st.obs d) := by
  induction eps with
  | nil => intro st o; exact ⟨QFrame.qrefl _, fun d => ObsShallowEq.srefl _⟩
  | cons e rest ih =>
    intro st o
    have step : ∀ st1 : GState,
        QFrame st1 st → (∀ d, ObsShallowEq (st1.obs d) (st.obs d)) →
        QFrame (disconnectSrcs st1 o rest) st
        ∧ ∀ d, ObsShallowEq ((disconnectSrcs st1 o rest).obs d) (st.obs d) := by
      intro st1 hq hsh
      exact ⟨(ih st1 o).1.qtrans hq,
        fun d => ((ih st1 o).2 d).strans (hsh d)⟩
    cases e with
    | src s =>
      cases hsub : (st.srcs s).sub with
      | none =>
        simpa [disconnectSrcs, hsub] using step st (QFrame.qrefl _) (fun d => ObsShallowEq.srefl _)
      | some sub =>
        have h1 : QFrame (setSrc st s { st.srcs s with sub := some (subRemove sub o) }) st :=
          ⟨rfl, rfl, rfl, rfl⟩
        have h2 : ∀ d, ObsShallowEq
            ((setSrc st s { st.srcs s with sub := some (subRemove sub o) }).obs d)
            (st.obs d) := fun d => ObsShallowEq.srefl _
        simpa [disconnectSrcs, hsub] using step _ h1 h2
    | ob dd =>
      cases hsub : (st.obs dd).sub with
      | none =>
        simpa [disconnectSrcs, hsub] using step st (QFrame.qrefl _) (fun d => ObsShallowEq.srefl _)
      | some sub =>
        have h1 : QFrame (setObs st dd { st.obs dd with sub := some (subRemove sub o) }) st :=
          ⟨rfl, rfl, rfl, rfl⟩
        have h2 : ∀ d, ObsShallowEq
            ((setObs st dd { st.obs dd with sub := some (subRemove sub o) }).obs d)
            (st.obs d) := by
          intro d
          by_cases hd : d = dd
          · subst hd
            simp [setObs, ObsShallowEq]
          · simp [setObs, Function.update_noteq hd, ObsShallowEq]
        simpa [disconnectSrcs, hsub] using step _ h1 h2

theorem disposeList_nil (f : Nat) (st : GState) : disposeList f st [] = st := by
  cases f <;> rfl

theorem disconnectSrcs_updates (eps : List Endpoint) (st : GState) (o : ObsId) :
    (disconnectSrcs st o eps).updates = st.updates :=
  (disconnectSrcs_frame eps st o).1.1

theorem disconnectSrcs_effects (eps : List Endpoint) (st : GState) (o : ObsId) :
    (disconnectSrcs st o eps).effects = st.effects :=
  (disconnectSrcs_frame eps st o).1.2.1

theorem disconnectSrcs_changes (eps : List Endpoint) (st : GState) (o : ObsId) :
    (disconnectSrcs st o eps).changes = st.changes :=
  (disconnectSrcs_frame eps st o).1.2.2.1

theorem disconnectSrcs_runLog (eps : List Endpoint) (st : GState) (o : ObsId) :
    (disconnectSrcs st o eps).runLog = st.runLog :=
  (disconnectSrcs_frame eps st o).1.2.2.2

theorem disconnectSrcs_state (eps : List Endpoint) (st : GState) (o d : ObsId) :
    ((disconnectSrcs st o eps).obs d).state = (st.obs d).state :=
  ((disconnectSrcs_frame eps st o).2 d).1

theorem disconnectSrcs_value (eps : List Endpoint) (st : GState) (o d : ObsId) :
    ((disconnectSrcs st o eps).obs d).value = (st.obs d).value :=
  ((disconnectSrcs_frame eps st o).2 d).2.1

theorem disconnectSrcs_age (eps : List Endpoint) (st : GState) (o d : ObsId) :
    ((disconnectSrcs st o eps).obs d).age = (st.obs d).age :=
  ((disconnectSrcs_frame eps st o).2 d).2.2.1

theorem disconnectSrcs_owner (eps : List Endpoint) (st : GState) (o d : ObsId) :
    ((disconnectSrcs st o eps).obs d).owner = (st.obs d).owner :=
  ((disconnectSrcs_frame eps st o).2 d).2.2.2.1

theorem disconnectSrcs_handler (eps : List Endpoint) (st : GState) (o d : ObsId) :
    ((disconnectSrcs st o eps).obs d).hasErrHandler = (st.obs d).hasErrHandler :=
  ((disconnectSrcs_frame eps st o).2 d).2.2.2.2

/-- For an observer without owned children, `disconnect` only runs its
cleanups, clears its context, and rewrites subscription vectors: the
queues, the run log, every other observer's shallow fields, and the
observer's own state, value, age and owner are untouched. -/
theorem disconnect_noOwned (f : Nat) (st : GState) (o : ObsId) (final : Bool)
    (h : (st.obs o).owned = []) :
    QFrame (disconnect f st o final) st
    ∧ (∀ d, d ≠ o → ObsShallowEq ((disconnect f st o final).obs d) (st.obs d))
    ∧ ((disconnect f st o final).obs o).state = (st.obs o).state
    ∧ ((disconnect f st o final).obs o).value = (st.obs o).value
    ∧ ((disconnect f st o final).obs o).age = (st.obs o).age
    ∧ ((disconnect f st o final).obs o).owner = (st.obs o).owner := by
  cases f with
  | zero =>
    exact ⟨QFrame.qrefl _, fun d _ => ObsShallowEq.srefl _, rfl, rfl, rfl, rfl⟩
  | succ f =>
    by_cases hcl : (st.obs o).cleanups = 0 <;>
      refine ⟨⟨?_, ?_, ?_, ?_⟩, fun d hd => ?_, ?_, ?_, ?_, ?_⟩ <;>
      simp_all [disconnect, disposeList_nil, setObs, ObsShallowEq,
        disconnectSrcs_updates, disconnectSrcs_effects, disconnectSrcs_changes,
        disconnectSrcs_runLog, disconnectSrcs_state, disconnectSrcs_value,
        disconnectSrcs_age, disconnectSrcs_owner, disconnectSrcs_handler,
        Function.update]

/-- `disconnect` at positive fuel clears the observer error-handler
context. -/
theorem disconnect_clears_handler (f : Nat) (st : GState) (o : ObsId)
    (final : Bool) (h : (st.obs o).owned = []) :
    ((disconnect (Nat.succ f) st o final).obs o).hasErrHandler = false := by
  by_cases hcl : (st.obs o).cleanups = 0 <;>
    simp_all [disconnect, disposeList_nil, setObs, disconnectSrcs_handler,
      Function.update]

theorem disconnect_updates (f : Nat) (st : GState) (o : ObsId) (final : Bool)
    (h : (st.obs o).owned = []) :
    (disconnect f st o final).updates = st.updates :=
  (disconnect_noOwned f st o final h).1.1

theorem disconnect_effects (f : Nat) (st : GState) (o : ObsId) (final : Bool)
    (h : (st.obs o).owned = []) :
    (disconnect f st o final).effects = st.effects :=
  (disconnect_noOwned f st o final h).1.2.1

theorem disconnect_changes (f : Nat) (st : GState) (o : ObsId) (final : Bool)
    (h : (st.obs o).owned = []) :
    (disconnect f st o final).changes = st.changes :=
  (disconnect_noOwned f st o final h).1.2.2.1

theorem disconnect_runLog (f : Nat) (st : GState) (o : ObsId) (final : Bool)
    (h : (st.obs o).owned = []) :
    (disconnect f st o final).runLog = st.runLog :=
  (disconnect_noOwned f st o final h).1.2.2.2

theorem disconnect_own_state (f : Nat) (st : GState) (o : ObsId) (final : Bool)
    (h : (st.obs o).owned = []) :
    ((disconnect f st o final).obs o).state = (st.obs o).state :=
  (disconnect_noOwned f st o final h).2.2.1

theorem disconnect_own_value (f : Nat) (st : GState) (o : ObsId) (final : Bool)
    (h : (st.obs o).owned = []) :
    ((disconnect f st o final).obs o).value = (st.obs o).value :=
  (disconnect_noOwned f st o final h).2.2.2.1

theorem disconnect_own_age (f : Nat) (st : GState) (o : ObsId) (final : Bool)
    (h : (st.obs o).owned = []) :
    ((disconnect f st o final).obs o).age = (st.obs o).age :=
  (disconnect_noOwned f st o final h).2.2.2.2.1

theorem disconnect_own_owner (f : Nat) (st : GState) (o : ObsId) (final : Bool)
    (h : (st.obs o).owned = []) :
    ((disconnect f st o final).obs o).owner = (st.obs o).owner :=
  (disconnect_noOwned f st o final h).2.2.2.2.2

theorem disconnect_obs_state (f : Nat) (st : GState) (o : ObsId) (final : Bool)
    (d : ObsId) (h : (st.obs o).owned = []) (hd : d ≠ o) :
    ((disconnect f st o final).obs d).state = (st.obs d).state :=
  ((disconnect_noOwned f st o final h).2.1 d hd).1

theorem disconnect_obs_value (f : Nat) (st : GState) (o : ObsId) (final : Bool)
    (d : ObsId) (h : (st.obs o).owned = []) (hd : d ≠ o) :
    ((disconnect f st o final).obs d).value = (st.obs d).value :=
  ((disconnect_noOwned f st o final h).2.1 d hd).2.1

theorem disconnect_obs_age (f : Nat) (st : GState) (o : ObsId) (final : Bool)
    (d : ObsId) (h : (st.obs o).owned = []) (hd : d ≠ o) :
    ((disconnect f st o final).obs d).age = (st.obs d).age :=
  ((disconnect_noOwned f st o final h).2.1 d hd).2.2.1

theorem disconnect_obs_owner (f : Nat) (st : GState) (o : ObsId) (final : Bool)
    (d : ObsId) (h : (st.obs o).owned = []) (hd : d ≠ o) :
    ((disconnect f st o final).obs d).owner = (st.obs d).owner :=
  ((disconnect_noOwned f st o final h).2.1 d hd).2.2.2.1

theorem disconnect_obs_handler (f : Nat) (st : GState) (o : ObsId) (final : Bool)
    (d : ObsId) (h : (st.obs o).owned = []) (hd : d ≠ o) :
    ((disconnect f st o final).obs d).hasErrHandler = (st.obs d).hasErrHandler :=
  ((disconnect_noOwned f st o final h).2.1 d hd).2.2.2.2

theorem disconnectSrcs_handlerLog (eps : List Endpoint) : ∀ st o,
    (disconnectSrcs st o eps).handlerLog = st.handlerLog := by
  induction eps with
  | nil => intro st o; rfl
  | cons e rest ih =>
    intro st o
    cases e with
    | src s =>
      cases hsub : (st.srcs s).sub <;> simp [disconnectSrcs, hsub, ih, setSrc]
    | ob dd =>
      cases hsub : (st.obs dd).sub <;> simp [disconnectSrcs, hsub, ih, setObs]

theorem disconnectSrcs_globalOwner (eps : List Endpoint) : ∀ st o,
    (disconnectSrcs st o eps).owner = st.owner := by
  induction eps with
  | nil => intro st o; rfl
  | cons e rest ih =>
    intro st o
    cases e with
    | src s =>
      cases hsub : (st.srcs s).sub <;> simp [disconnectSrcs, hsub, ih, setSrc]
    | ob dd =>
      cases hsub : (st.obs dd).sub <;> simp [disconnectSrcs, hsub, ih, setObs]

theorem disconnect_handlerLog (f : Nat) (st : GState) (o : ObsId) (final : Bool)
    (h : (st.obs o).owned = []) :
    (disconnect f st o final).handlerLog = st.handlerLog := by
  cases f with
  | zero => rfl
  | succ f =>
    by_cases hcl : (st.obs o).cleanups = 0 <;>
      simp_all [disconnect, disposeList_nil, setObs, disconnectSrcs_handlerLog]

theorem disconnect_globalOwner (f : Nat) (st : GState) (o : ObsId) (final : Bool)
    (h : (st.obs o).owned = []) :
    (disconnect f st o final).owner = st.owner := by
  cases f with
  | zero => rfl
  | succ f =>
    by_cases hcl : (st.obs o).cleanups = 0 <;>
      simp_all [disconnect, disposeList_nil, setObs, disconnectSrcs_globalOwner]

/-- A successful scheduler-driven recompute: the computation runs once,
the new value is stored, the old value is returned, the queues are
untouched, and every other observer keeps its state, value and age. -/
theorem runObserver_ok (f : Nat) (fns : ObsId → Val → FnRes) (st : GState)
    (o : ObsId) (nv : Val)
    (how : (st.obs o).owned = [])
    (hfn : fns o ((st.obs o).value) = .val nv) :
    (runObserver (f + 1) fns st o).1 = none
    ∧ (runObserver (f + 1) fns st o).2.2 = (st.obs o).value
    ∧ (runObserver (f + 1) fns st o).2.1.updates = st.updates
    ∧ (runObserver (f + 1) fns st o).2.1.effects = st.effects
    ∧ (runObserver (f + 1) fns st o).2.1.changes = st.changes
    ∧ (runObserver (f + 1) fns st o).2.1.runLog = st.runLog ++ [o]
    ∧ ((runObserver (f + 1) fns st o).2.1.obs o).value = nv
    ∧ (∀ d, d ≠ o →
        ((runObserver (f + 1) fns st o).2.1.obs d).state = (st.obs d).state
        ∧ ((runObserver (f + 1) fns st o).2.1.obs d).value = (st.obs d).value
        ∧ ((runObserver (f + 1) fns st o).2.1.obs d).age = (st.obs d).age) := by
  refine ⟨?_, ?_, ?_, ?_, ?_, ?_, ?_, fun d hd => ⟨?_, ?_, ?_⟩⟩ <;>
    simp_all [runObserver, hfn, setObs, resetObserver,
      disconnect_updates, disconnect_effects, disconnect_changes, disconnect_runLog,
      disconnect_own_state, disconnect_own_value, disconnect_own_age,
      disconnect_obs_state, disconnect_obs_value, disconnect_obs_age,
      Function.update]

/-- A blank observer record, the base for concrete test states. -/
def obs0 : ObsRec :=
  { type := .memo, state := 0, hasFn := true, value := 0, eq := none,
    age := 0, owner := none, owned := [], cleanups := 0,
    hasErrHandler := false, srcs := [], deps := [], depSlot := 0,
    depsCount := 0, sub := none }

/-- A blank source record. -/
def src0 : SrcRec :=
  { value := 0, pending := none, sub := none, locked := 0, eq := none }

/-- A blank global state. -/
def gs0 : GState :=
  { obs := fun _ => obs0, srcs := fun _ => src0, time := 0,
    isRunning := false, pendingObs := none, owner := none, listener := none,
    changes := MQueue.empty, updates := MQueue.empty,
    disposes := MQueue.empty, effects := MQueue.empty,
    pendingEffects := none, runLog := [], cleanupLog := [],
    handlerLog := [] }

/-- Test state for the equality-suppression scenario: observer `0` is a
memo with an equality predicate marked `Stale`; observer `1` is a
downstream observer marked `Pending` through a single pending dep. -/
def c3St : GState :=
  { gs0 with obs := fun i =>
      if i = 0 then { obs0 with state := stStale, eq := some (fun a b => a == b) }
      else if i = 1 then { obs0 with state := stPending, depSlot := 0, depsCount := 1 }
      else obs0 }

/-- Computation functions for the equality-suppression scenario: every
observer recomputes to its previous value. -/
def c3Fns : ObsId → Val → FnRes := fun _ v => .val v

/-- C3: when an observer with an equality predicate recomputes during a
tick to a value its predicate deems equal to the previous one, the update
runs only that observer (the run log grows by it alone), leaves every
queue untouched and leaves every other observer's state and value
unchanged, so no downstream observer is marked or run; and a downstream
observer marked `Pending` resolves back to `Actual` (state `0`) through
the dep-counting branch without any computation running and with the run
log and queues unchanged. -/
theorem c3_equality_suppression
    (f : Nat) (fns : ObsId → Val → FnRes) (st : GState) (o p : ObsId)
    (eqf : Val → Val → Bool) (nv : Val)
    (hst : (st.obs o).state = stStale)
    (heq : (st.obs o).eq = some eqf)
    (how : (st.obs o).owned = [])
    (hfn : fns o ((st.obs o).value) = .val nv)
    (heqv : eqf ((st.obs o).value) nv = true)
    (hpst : (st.obs p).state = stPending)
    (hdep : (st.obs p).depSlot + 1 = (st.obs p).depsCount) :
    ((updateNode (f + 2) fns st o).1 = none
      ∧ (updateNode (f + 2) fns st o).2.runLog = st.runLog ++ [o]
      ∧ (updateNode (f + 2) fns st o).2.updates = st.updates
      ∧ (updateNode (f + 2) fns st o).2.effects = st.effects
      ∧ (updateNode (f + 2) fns st o).2.changes = st.changes
      ∧ ∀ d, d ≠ o →
          ((updateNode (f + 2) fns st o).2.obs d).state = (st.obs d).state
          ∧ ((updateNode (f + 2) fns st o).2.obs d).value = (st.obs d).value)
    ∧ ((updateNode (f + 1) fns st p).1 = none
      ∧ ((updateNode (f + 1) fns st p).2.obs p).state = 0
      ∧ (updateNode (f + 1) fns st p).2.runLog = st.runLog
      ∧ (updateNode (f + 1) fns st p).2.updates = st.updates
      ∧ (updateNode (f + 1) fns st p).2.effects = st.effects
      ∧ (updateNode (f + 1) fns st p).2.changes = st.changes) := by
  constructor
  · have e1 : stStale &&& stDisposed = 0 := by decide
    have e2 : stStale &&& stPending = 0 := by decide
    have e3 : stStale &&& stStale = 1 := by decide
    have e4 : stStale &&& stPendingDisposal = 0 := by decide
    have hro := runObserver_ok f fns st o nv how hfn
    rcases hR : runObserver (f + 1) fns st o with ⟨e, st1, cur⟩
    rw [hR] at hro
    dsimp only at hro
    obtain ⟨he, hcur, hupd, heff, hchg, hlog, hval, hoth⟩ := hro
    subst he
    subst hcur
    have hup : updateNode (f + 2) fns st o = (none, st1) := by
      show updateNode (Nat.succ (f + 1)) fns st o = (none, st1)
      simp [updateNode, hst, heq, e1, e2, e3, e4, hR, hval, heqv]
    exact ⟨by simp [hup], by simp [hup, hlog], by simp [hup, hupd],
      by simp [hup, heff], by simp [hup, hchg],
      fun d hd => ⟨by simp [hup, (hoth d hd).1], by simp [hup, (hoth d hd).2.1]⟩⟩
  · have p1 : stPending &&& stDisposed = 0 := by decide
    have p2 : stPending &&& stPending = 2 := by decide
    have p3 : stPending &&& (stAll ^^^ stPendingStates) = 0 := by decide
    have hb : updateNode (f + 1) fns st p =
        (none, resetObserver (setObs st p
          { st.obs p with
            deps := listSetO (st.obs p).deps (st.obs p).depSlot none,
            depSlot := (st.obs p).depSlot + 1 }) p stPendingStates) := by
      show updateNode (Nat.succ f) fns st p = _
      simp [updateNode, hpst, p1, p2, hdep]
    refine ⟨by simp [hb], ?_, ?_, ?_, ?_, ?_⟩ <;>
      simp [hb, resetObserver, setObs, Function.update, hpst, p3]

/-- Closed instance of the equality-suppression theorem on the two-node
test state: the stale memo `0` recomputes to an equal value, the pending
observer `1` resolves to `Actual`. -/
theorem c3_equality_suppression_witness :
    ((updateNode (0 + 2) c3Fns c3St 0).1 = none
      ∧ (updateNode (0 + 2) c3Fns c3St 0).2.runLog = c3St.runLog ++ [0]
      ∧ (updateNode (0 + 2) c3Fns c3St 0).2.updates = c3St.updates
      ∧ (updateNode (0 + 2) c3Fns c3St 0).2.effects = c3St.effects
      ∧ (updateNode (0 + 2) c3Fns c3St 0).2.changes = c3St.changes
      ∧ ∀ d, d ≠ 0 →
          ((updateNode (0 + 2) c3Fns c3St 0).2.obs d).state = (c3St.obs d).state
          ∧ ((updateNode (0 + 2) c3Fns c3St 0).2.obs d).value = (c3St.obs d).value)
    ∧ ((updateNode (0 + 1) c3Fns c3St 1).1 = none
      ∧ ((updateNode (0 + 1) c3Fns c3St 1).2.obs 1).state = 0
      ∧ (updateNode (0 + 1) c3Fns c3St 1).2.runLog = c3St.runLog
      ∧ (updateNode (0 + 1) c3Fns c3St 1).2.updates = c3St.updates
      ∧ (updateNode (0 + 1) c3Fns c3St 1).2.effects = c3St.effects
      ∧ (updateNode (0 + 1) c3Fns c3St 1).2.changes = c3St.changes) :=
  c3_equality_suppression 0 c3Fns c3St 0 1 (fun a b => a == b) 0
    rfl rfl rfl rfl rfl rfl rfl

/-- A throwing scheduler-driven recompute: the exception escapes after
the inputs were disconnected, so the stored value is untouched, the
tracking owner is left pointing at the throwing observer, its own error
handler was already cleared by `disconnect`, its recorded owner link is
unchanged, the handler log is unchanged and every other observer keeps
its handler flag, owner link and value. -/
theorem runObserver_err (f : Nat) (fns : ObsId → Val → FnRes) (st : GState)
    (o : ObsId) (ec : Nat)
    (how : (st.obs o).owned = [])
    (hfn : fns o ((st.obs o).value) = .err ec) :
    (runObserver (f + 2) fns st o).1 = some (.user ec)
    ∧ (runObserver (f + 2) fns st o).2.2 = (st.obs o).value
    ∧ ((runObserver (f + 2) fns st o).2.1.obs o).value = (st.obs o).value
    ∧ ((runObserver (f + 2) fns st o).2.1.obs o).hasErrHandler = false
    ∧ ((runObserver (f + 2) fns st o).2.1.obs o).owner = (st.obs o).owner
    ∧ (runObserver (f + 2) fns st o).2.1.owner = some o
    ∧ (runObserver (f + 2) fns st o).2.1.handlerLog = st.handlerLog
    ∧ (∀ d, d ≠ o →
        ((runObserver (f + 2) fns st o).2.1.obs d).hasErrHandler = (st.obs d).hasErrHandler
        ∧ ((runObserver (f + 2) fns st o).2.1.obs d).owner = (st.obs d).owner
        ∧ ((runObserver (f + 2) fns st o).2.1.obs d).value = (st.obs d).value) := by
  refine ⟨?_, ?_, ?_, ?_, ?_, ?_, ?_, fun d hd => ⟨?_, ?_, ?_⟩⟩ <;>
    simp_all [runObserver, setObs,
      disconnect_own_value, disconnect_clears_handler, disconnect_own_owner,
      disconnect_globalOwner, disconnect_handlerLog,
      disconnect_obs_handler, disconnect_obs_owner, disconnect_obs_value,
      Function.update]

/-- Two states agreeing pointwise on the handler flag and the owner link
produce the same owner-chain walk. -/
theorem ownerChainHandler_congr (a b : GState)
    (h : ∀ w, (a.obs w).hasErrHandler = (b.obs w).hasErrHandler
        ∧ (a.obs w).owner = (b.obs w).owner) :
    ∀ f x, ownerChainHandler f a x = ownerChainHandler f b x := by
  intro f
  induction f with
  | zero => intro x; cases x <;> rfl
  | succ f ih =>
    intro x
    cases x with
    | none => rfl
    | some w =>
      simp only [ownerChainHandler, (h w).1, (h w).2, ih]

/-- Test state for the error-routing scenario: observer `0` is a stale
memo owned by observer `1`, which carries an error handler. -/
def c4St : GState :=
  { gs0 with obs := fun i =>
      if i = 0 then { obs0 with state := stStale, owner := some 1 }
      else if i = 1 then { obs0 with hasErrHandler := true }
      else obs0 }

/-- Computation functions for the error-routing scenario: every observer
throws error `7`. -/
def c4Fns : ObsId → Val → FnRes := fun _ _ => .err 7

/-- C4: when a stale observer recomputes during the updates-queue flush
and its computation throws, its stored value is preserved unchanged, and
the error is routed to the nearest owner in the owner chain carrying an
error handler (that handler alone is invoked); when the walk finds no
handler the error is re-raised out of the flush step, with no handler
invoked.  The walk is read off the pre-state with the throwing observer's
own handler masked, since `disconnect` cleared it before the function
ran. -/
theorem c4_error_routing
    (f : Nat) (fns : ObsId → Val → FnRes) (st : GState) (o : ObsId) (ec : Nat)
    (hst : (st.obs o).state = stStale)
    (how : (st.obs o).owned = [])
    (hfn : fns o ((st.obs o).value) = .err ec) :
    ((updatesQueueStep (f + 3) fns st o).2.obs o).value = (st.obs o).value
    ∧ (∀ w, ownerChainHandler (f + 2)
          (setObs st o { st.obs o with hasErrHandler := false })
          ((st.obs o).owner) = some w →
        (updatesQueueStep (f + 3) fns st o).1 = none
        ∧ (updatesQueueStep (f + 3) fns st o).2.handlerLog
            = st.handlerLog ++ [(w, EErr.user ec)])
    ∧ (ownerChainHandler (f + 2)
          (setObs st o { st.obs o with hasErrHandler := false })
          ((st.obs o).owner) = none →
        (updatesQueueStep (f + 3) fns st o).1 = some (EErr.user ec)
        ∧ (updatesQueueStep (f + 3) fns st o).2.handlerLog = st.handlerLog) := by
  have hro := runObserver_err f fns st o ec how hfn
  rcases hR : runObserver (f + 2) fns st o with ⟨e, st4, cur⟩
  rw [hR] at hro
  dsimp only at hro
  obtain ⟨he, hcur, hval, hhd, hown, hgown, hlogH, hoth⟩ := hro
  subst he
  have e1 : stStale &&& stDisposed = 0 := by decide
  have e2 : stStale &&& stPending = 0 := by decide
  have e3 : stStale &&& stStale = 1 := by decide
  have e4 : stStale &&& stPendingDisposal = 0 := by decide
  have hup : updateNode (f + 3) fns st o = (some (EErr.user ec), st4) := by
    show updateNode (Nat.succ (f + 2)) fns st o = _
    cases heq : (st.obs o).eq with
    | none => simp [updateNode, hst, heq, e1, e2, e3, e4, hR]
    | some eqf => simp [updateNode, hst, heq, e1, e2, e3, e4, hR]
  have hchain : ∀ x, ownerChainHandler (f + 2) st4 x
      = ownerChainHandler (f + 2)
          (setObs st o { st.obs o with hasErrHandler := false }) x := by
    intro x
    apply ownerChainHandler_congr
    intro w
    by_cases hw : w = o
    · subst hw
      exact ⟨by rw [hhd]; simp [setObs, Function.update],
        by rw [hown]; simp [setObs, Function.update]⟩
    · exact ⟨by rw [(hoth w hw).1]; simp [setObs, Function.update, hw],
        by rw [(hoth w hw).2.1]; simp [setObs, Function.update, hw]⟩
  have hstep : updatesQueueStep (f + 3) fns st o = handleError (f + 3) st4 (EErr.user ec) := by
    simp [updatesQueueStep, hup]
  have hwalk : ownerChainHandler (f + 3) st4 st4.owner
      = ownerChainHandler (f + 2)
          (setObs st o { st.obs o with hasErrHandler := false })
          ((st.obs o).owner) := by
    rw [hgown]
    show ownerChainHandler (Nat.succ (f + 2)) st4 (some o) = _
    simp [ownerChainHandler, hhd, hown, hchain]
  refine ⟨?_, ?_, ?_⟩
  · rw [hstep]
    unfold handleError
    cases hoc : ownerChainHandler (f + 3) st4 st4.owner <;> simp [hval]
  · intro w hw
    rw [hstep]
    unfold handleError
    rw [hwalk, hw]
    simp [hlogH]
  · intro hw
    rw [hstep]
    unfold handleError
    rw [hwalk, hw]
    simp [hlogH]

/-- Closed instance of the error-routing theorem on the two-node test
state: memo `0` throws `7`, owner `1` carries the handler, the owner-chain
walk finds `1` and the handler log records `(1, user 7)` with the flush
step completing normally. -/
theorem c4_error_routing_witness :
    ((updatesQueueStep (0 + 3) c4Fns c4St 0).2.obs 0).value = (c4St.obs 0).value
    ∧ (∀ w, ownerChainHandler (0 + 2)
          (setObs c4St 0 { c4St.obs 0 with hasErrHandler := false })
          ((c4St.obs 0).owner) = some w →
        (updatesQueueStep (0 + 3) c4Fns c4St 0).1 = none
        ∧ (updatesQueueStep (0 + 3) c4Fns c4St 0).2.handlerLog
            = c4St.handlerLog ++ [(w, EErr.user 7)])
    ∧ (ownerChainHandler (0 + 2)
          (setObs c4St 0 { c4St.obs 0 with hasErrHandler := false })
          ((c4St.obs 0).owner) = none →
        (updatesQueueStep (0 + 3) c4Fns c4St 0).1 = some (EErr.user 7)
        ∧ (updatesQueueStep (0 + 3) c4Fns c4St 0).2.handlerLog = c4St.handlerLog) :=
  c4_error_routing 0 c4Fns c4St 0 7 rfl rfl rfl

/-- The marking kernels touch only observer records, the queues and the
pending-observer pointer: the source store is invariant. -/
theorem mark_srcs_frame (f : Nat) :
    (∀ st l pend, (markForDisposal f st l pend).srcs = st.srcs)
    ∧ (∀ st o, (staleMark f st o).srcs = st.srcs)
    ∧ (∀ st o, (pendingMark f st o).srcs = st.srcs)
    ∧ (∀ st o, (stalePendingMark f st o).srcs = st.srcs)
    ∧ (∀ st o p, (prepareDownstream f st o p).srcs = st.srcs)
    ∧ (∀ st o c d, (markDownstream f st o c d).srcs = st.srcs)
    ∧ (∀ st l k, (markObsList f st l k).srcs = st.srcs) := by
  induction f with
  | zero =>
    refine ⟨?_, ?_, ?_, ?_, ?_, ?_, ?_⟩ <;> intros <;>
      simp [markForDisposal, staleMark, pendingMark, stalePendingMark,
        prepareDownstream, markDownstream, markObsList]
  | succ f ih =>
    obtain ⟨ihMFD, ihStale, ihPend, ihSP, ihPrep, ihMD, ihML⟩ := ih
    have ihSPE : ∀ st o, (stalePendingEffectMark f st o).srcs = st.srcs := by
      intro st o
      simp [stalePendingEffectMark, setObs, ihMFD, apply_ite GState.srcs]
    refine ⟨?_, ?_, ?_, ?_, ?_, ?_, ?_⟩
    · intro st l pend
      cases l with
      | nil => simp [markForDisposal]
      | cons c rest =>
        simp [markForDisposal, setObs, ihMFD, apply_ite GState.srcs]
    · intro st o
      simp [staleMark, setObs, ihSPE, ihPrep, apply_ite GState.srcs]
    · intro st o
      simp [pendingMark, setObs, ihPrep, apply_ite GState.srcs]
    · intro st o
      simp [stalePendingMark, setObs, ihMD, apply_ite GState.srcs]
    · intro st o p
      simp [prepareDownstream, ihMD, apply_ite GState.srcs]
    · intro st o c d
      cases hsub : (st.obs o).sub <;>
        simp [markDownstream, hsub, setObs, ihMFD, ihML, apply_ite GState.srcs]
    · intro st l k
      cases l with
      | nil => simp [markObsList]
      | cons d rest =>
        cases k <;>
          simp [markObsList, setObs, ihStale, ihPend, ihSP, ihML, apply_ite GState.srcs]

/-- `applyDataChange` commits the staged value: afterwards the source
holds `pending ?? value` and has no staged value, whatever the marking of
its subscribers does. -/
theorem applyDataChange_commit (f : Nat) (st : GState) (s : SrcId) :
    ((applyDataChange f st s).srcs s).value
      = (st.srcs s).pending.getD (st.srcs s).value
    ∧ ((applyDataChange f st s).srcs s).pending = none := by
  cases hsub : (st.srcs s).sub with
  | none => simp [applyDataChange, hsub, setSrc, Function.update]
  | some sub =>
    have h := (mark_srcs_frame f).2.2.2.2.2.2
    simp [applyDataChange, hsub, setSrc, Function.update, h]

/-- C5: for a locked source, a write only stages the value in the
pending slot (the whole resulting state is exactly the pending-slot
update, so the committed value, the subscription and every queue are
untouched); a read returns the committed value; a second locked write
overwrites the staged value so consecutive writes collapse; the unlock
that brings the count to `0` with a staged value enqueues exactly one
`Changes` entry and changes nothing else; and the flush of that entry
commits the staged value in one step. -/
theorem c5_lock_semantics
    (f : Nat) (fns : ObsId → Val → FnRes) (st : GState) (s : SrcId)
    (v v2 w : Val) :
    ((st.srcs s).locked > 0 →
      sourceNext f fns st s v
        = (none, setSrc st s { st.srcs s with pending := some v }, v))
    ∧ (sourceCurrent st s).2 = (st.srcs s).value
    ∧ ((st.srcs s).locked > 0 →
        (sourceNext f fns (sourceNext f fns st s v).2.1 s v2).2.1.srcs s
          = { st.srcs s with pending := some v2 })
    ∧ ((st.srcs s).locked = 1 → (st.srcs s).pending = some w →
        st.isRunning = true →
        sourceUnlock f fns st s
          = (none, { setSrc st s { st.srcs s with locked := 0 } with
              changes := st.changes.add s }))
    ∧ ((st.srcs s).pending = some w →
        ((applyDataChange f st s).srcs s).value = w
        ∧ ((applyDataChange f st s).srcs s).pending = none) := by
  refine ⟨?_, ?_, ?_, ?_, ?_⟩
  · intro h
    simp [sourceNext, h]
  · rcases hl : st.listener with _ | to_
    · simp [sourceCurrent, connectTo, hl]
    · rcases hsc : subConnect ((st.srcs s).sub.getD ⟨none, none⟩) to_ with ⟨sub1, att⟩
      cases att <;>
        simp [sourceCurrent, connectTo, hl, hsc, setSrc, setObs, Function.update]
  · intro h
    simp [sourceNext, h, setSrc, Function.update]
  · intro h1 h2 h3
    simp [sourceUnlock, h1, h2, h3, setSrc, Function.update]
  · intro h2
    have hc := applyDataChange_commit f st s
    rw [h2] at hc
    simpa using hc

/-- Test state for the lock scenario: source `0` is locked once with the
committed value `10` and the staged value `6`, during a running flush. -/
def c5St : GState :=
  { gs0 with isRunning := true, srcs := fun i =>
      if i = 0 then { src0 with value := 10, pending := some 6, locked := 1 }
      else src0 }

/-- Computation functions for the lock scenario. -/
def c5Fns : ObsId → Val → FnRes := fun _ v => .val v

/-- Closed instance of the lock-semantics theorem on the one-source test
state: a locked write of `4` only stages `4`, the read returns the
committed `10`, a second write of `5` overwrites the stage, the final
unlock enqueues the single change, and the flush commits the staged
`6`. -/
theorem c5_lock_semantics_witness :
    sourceNext 0 c5Fns c5St 0 4
      = (none, setSrc c5St 0 { c5St.srcs 0 with pending := some 4 }, 4)
    ∧ (sourceCurrent c5St 0).2 = (c5St.srcs 0).value
    ∧ (sourceNext 0 c5Fns (sourceNext 0 c5Fns c5St 0 4).2.1 0 5).2.1.srcs 0
        = { c5St.srcs 0 with pending := some 5 }
    ∧ sourceUnlock 0 c5Fns c5St 0
        = (none, { setSrc c5St 0 { c5St.srcs 0 with locked := 0 } with
            changes := c5St.changes.add 0 })
    ∧ (((applyDataChange 0 c5St 0).srcs 0).value = 6
        ∧ ((applyDataChange 0 c5St 0).srcs 0).pending = none) := by
  obtain ⟨h1, h2, h3, h4, h5⟩ := c5_lock_semantics 0 c5Fns c5St 0 4 5 6
  exact ⟨h1 (by decide), h2, h3 (by decide), h4 rfl rfl rfl, h5 rfl⟩

/-- Computation functions for the self-read scenario. -/
def c7Fns : ObsId → Val → FnRes := fun _ v => .val v

/-- Test state refuting the unconditional circular-read claim: observer
`0` is `Running` with `age = 0` while the clock is already at `1`, and a
listener is installed (a tracked read). -/
def c7St : GState :=
  { gs0 with
    time := 1
    listener := some 0
    obs := fun i =>
      if i = 0 then { obs0 with state := stRunning, age := 0 } else obs0 }

/-- Test state for the amended circular-read theorem: observer `0` is
`Running` with `age` equal to the current clock, under a tracked read. -/
def c7StA : GState :=
  { gs0 with
    listener := some 0
    obs := fun i =>
      if i = 0 then { obs0 with state := stRunning } else obs0 }

/-- C7 counterexample: a tracked self-read of a `Running` observer whose
`age` lags the clock does NOT raise `CircularDependency` — `Observer.call`
additionally requires `age === $$Time`, so the read completes normally. -/
theorem c7_circular_counterexample :
    (c7St.obs 0).state = stRunning ∧ c7St.listener = some 0
    ∧ (observerCall 1 c7Fns c7St 0).1 = none := by
  refine ⟨rfl, rfl, ?_⟩
  rfl

/-- C7 amended: a tracked read of a `Running` observer raises
`CircularDependency` when additionally the observer's `age` equals the
current tick, leaving the state untouched. -/
theorem c7_circular_amended (f : Nat) (fns : ObsId → Val → FnRes)
    (st : GState) (o : ObsId)
    (hl : st.listener.isSome)
    (hst : (st.obs o).state = stRunning)
    (hage : (st.obs o).age = st.time) :
    observerCall (f + 1) fns st o = (some .circular, st, 0) := by
  obtain ⟨l, hl2⟩ := Option.isSome_iff_exists.mp hl
  have e1 : ¬(stRunning &&& stStale ≠ 0) := by decide
  have e2 : stRunning &&& stLiftable = 0 := by decide
  show observerCall (Nat.succ f) fns st o = _
  simp [observerCall, hst, hl2, hage, e1, e2]

/-- Closed instance of the amended circular-read theorem: the tracked
self-read of the running observer `0` at matching age raises
`CircularDependency`. -/
theorem c7_circular_amended_witness :
    observerCall (0 + 1) c7Fns c7StA 0 = (some EErr.circular, c7StA, 0) :=
  c7_circular_amended 0 c7Fns c7StA 0 rfl rfl rfl

/-- Claim-side model of a queue flush (written from the claim's words,
to be compared with `MQueue.runFrom`): an exception thrown while
processing one item is routed to the handler and never prevents the
remaining items from being processed, and the flush always ends with the
logical size reset to `0`. -/
def queueRunSpecFrom {α σ ε : Type} (step : Option α → σ → Except ε σ)
    (handle : ε → σ → Except ε σ) :
    Nat → Nat → MQueue α → σ → MQueue α × σ
  | 0, _, q, s => ({ q with size := 0 }, s)
  | Nat.succ n, i, q, s =>
    if i < q.size then
      let item := (q.items.get? i).join
      let q1 : MQueue α := { q with items := listSetO q.items i none }
      match step item s with
      | .ok s1 => queueRunSpecFrom step handle n (i + 1) q1 s1
      | .error e =>
        match handle e s with
        | .ok s2 => queueRunSpecFrom step handle n (i + 1) q1 s2
        | .error _ => queueRunSpecFrom step handle n (i + 1) q1 s
    else ({ q with size := 0 }, s)

/-- Claim-side queue flush over the whole queue. -/
def queueRunSpec {α σ ε : Type} (step : Option α → σ → Except ε σ)
    (handle : ε → σ → Except ε σ) (q : MQueue α) (s : σ) : MQueue α × σ :=
  queueRunSpecFrom step handle (q.size + 1) 0 q s

/-- Concrete flush refuting the unconditional claim: two queued items,
the first throws, the handler mechanism re-raises. -/
def c9Q : MQueue Bool := { items := [some true, some false], size := 2 }

/-- Step function: `true` items throw, anything else bumps the state. -/
def c9Step : Option Bool → Nat → Except Unit Nat := fun a s =>
  match a with
  | some true => .error ()
  | _ => .ok (s + 1)

/-- A re-raising handler mechanism (no error handler installed anywhere
in the owner chain). -/
def c9Handle : Unit → Nat → Except Unit Nat := fun e _ => .error e

/-- An absorbing handler mechanism. -/
def c9HandleAbs : Unit → Nat → Except Unit Nat := fun _ s => .ok s

/-- C9 counterexample: when the handler mechanism re-raises (no error
handler is installed), the exception escapes `Queue.run`, the remaining
item is never processed (the fold state stays `0`) and the logical size
is left at `2`, not reset to `0`. -/
theorem c9_queue_flush_counterexample :
    (MQueue.runWith c9Step c9Handle c9Q 0).1 = some ()
    ∧ (MQueue.runWith c9Step c9Handle c9Q 0).2.1.size = 2
    ∧ (MQueue.runWith c9Step c9Handle c9Q 0).2.2 = 0 :=
  ⟨rfl, rfl, rfl⟩

/-- C9 amended: provided the error-handler mechanism absorbs every
exception, a queue flush matches the claim-side model exactly — every
item is processed, an exception in one item never prevents the remaining
ones, no exception escapes, and the logical size is reset to `0`. -/
theorem c9_queue_flush_amended {α σ ε : Type} (step : Option α → σ → Except ε σ)
    (handle : ε → σ → Except ε σ)
    (habs : ∀ e s, ∃ s2, handle e s = .ok s2) (q : MQueue α) (s : σ) :
    (MQueue.runWith step handle q s).1 = none
    ∧ (MQueue.runWith step handle q s).2 = queueRunSpec step handle q s
    ∧ (MQueue.runWith step handle q s).2.1.size = 0 := by
  have key : ∀ n i (q : MQueue α) s,
      (MQueue.runFrom step handle n i q s).1 = none
      ∧ (MQueue.runFrom step handle n i q s).2 = queueRunSpecFrom step handle n i q s
      ∧ (MQueue.runFrom step handle n i q s).2.1.size = 0 := by
    intro n
    induction n with
    | zero =>
      intro i q s
      exact ⟨rfl, rfl, rfl⟩
    | succ n ih =>
      intro i q s
      by_cases hi : i < q.size
      · cases hstep : step ((q.items.get? i).join) s with
        | ok s1 =>
          have h := ih (i + 1) { q with items := listSetO q.items i none } s1
          have hsz := h.2.1 ▸ h.2.2
          simp only [List.get?_eq_getElem?, Option.join, id_eq] at hstep
          refine ⟨?_, ?_, ?_⟩ <;>
            simp [MQueue.runFrom, queueRunSpecFrom, Option.join, hi, hstep,
              h.1, h.2.1, h.2.2, hsz]
        | error e =>
          obtain ⟨s2, hh⟩ := habs e s
          have h := ih (i + 1) { q with items := listSetO q.items i none } s2
          have hsz := h.2.1 ▸ h.2.2
          simp only [List.get?_eq_getElem?, Option.join, id_eq] at hstep
          refine ⟨?_, ?_, ?_⟩ <;>
            simp [MQueue.runFrom, queueRunSpecFrom, Option.join, hi, hstep, hh,
              h.1, h.2.1, h.2.2, hsz]
      · refine ⟨?_, ?_, ?_⟩ <;> simp [MQueue.runFrom, queueRunSpecFrom, hi]
  have h := key (q.size + 1) 0 q s
  exact ⟨h.1, h.2.1, h.2.2⟩

/-- Closed instance of the amended flush theorem: with the absorbing
handler, the two-item queue flushes completely and matches the
claim-side model. -/
theorem c9_queue_flush_amended_witness :
    (MQueue.runWith c9Step c9HandleAbs c9Q 0).1 = none
    ∧ (MQueue.runWith c9Step c9HandleAbs c9Q 0).2 = queueRunSpec c9Step c9HandleAbs c9Q 0
    ∧ (MQueue.runWith c9Step c9HandleAbs c9Q 0).2.1.size = 0 :=
  c9_queue_flush_amended c9Step c9HandleAbs (fun _ s => ⟨s, rfl⟩) c9Q 0

end RX

namespace AX

/-! Shallow embedding of the `'asap'` scheduling layer of
packages/reactivity/src/index.ts: the `$$Scheduled`/`$$Running`/`$$Tick`
globals, the `$$Queue` `AsapQueue` (actions abstracted as tokens), the
number of host microtasks scheduled through `Resolved.then`, the number
of `batch` invocations and the log of executed actions.  The timeline
check of `AsapQueue.run(true)` is elided (`timeline.nextCheck` is unset
in the asap-only scope). -/

/-- The scheduler globals and the asap queue. -/
structure AXState where
  scheduled : Bool
  running : Bool
  tick : Nat
  qItems : List (Option Nat)
  qSize : Nat
  qCount : Nat
  hostMicro : Nat
  batchRuns : Nat
  execLog : List Nat
deriving DecidableEq, Repr

/-- The idle scheduler. -/
def axInit : AXState :=
  { scheduled := false, running := false, tick := 0, qItems := [],
    qSize := 0, qCount := 0, hostMicro := 0, batchRuns := 0, execLog := [] }

/-- `AsapQueue.add(item)`: `items[size++] = item`, `count++`. -/
def queueAdd (st : AXState) (a : Nat) : AXState :=
  { st with
    qCount := st.qCount + 1
    qItems := RX.listSetO st.qItems st.qSize (some a)
    qSize := st.qSize + 1 }

/-- `scheduleTick()`: on the first call of a frame, advance the tick and
hand one callback to the host microtask queue; later calls do nothing. -/
def scheduleTick (st : AXState) : AXState :=
  if st.scheduled then st
  else { st with scheduled := true, tick := st.tick + 1, hostMicro := st.hostMicro + 1 }

/-- `tick(action)`: schedule, then enqueue. -/
def tickCall (st : AXState) (a : Nat) : AXState :=
  queueAdd (scheduleTick st) a

/-- A burst of `tick` calls within one synchronous frame. -/
def tickCalls : AXState → List Nat → AXState
  | st, [] => st
  | st, a :: rest => tickCalls (tickCall st a) rest

/-- The `for (let i = 0; i < size; ++i) items[i]()` loop over the sliced
items: a nulled slot is a call of `null` and throws. -/
def asapRunLoop : List (Option Nat) → List Nat → Except String (List Nat)
  | [], acc => .ok acc
  | none :: _, _ => .error "TypeError: items[i] is not a function"
  | some a :: rest, acc => asapRunLoop rest (acc ++ [a])

/-- `AsapQueue.run()`: nothing to do on an empty queue; otherwise slice
the items, reset `size` and `count`, and execute every slot up to the
captured size in order. -/
def asapRun (st : AXState) : Except String AXState :=
  if st.qCount = 0 then .ok st
  else
    let items := st.qItems.take st.qSize
    let st1 := { st with qSize := 0, qCount := 0 }
    match asapRunLoop items st1.execLog with
    | .ok log => .ok { st1 with execLog := log }
    | .error e => .error e

/-- `runMicroQueue()`: clear `$$Scheduled`, set `$$Running`, drain the
queue under a single `batch`, clear `$$Running`. -/
def runMicroQueue (st : AXState) : Except String AXState :=
  let st1 := { st with scheduled := false, running := true }
  match asapRun { st1 with batchRuns := st1.batchRuns + 1 } with
  | .ok st2 => .ok { st2 with running := false }
  | .error e => .error e

/-- The host delivering one scheduled microtask: the `Resolved.then`
callback returns immediately when the tick was cancelled, otherwise runs
`runMicroQueue`. -/
def hostDispatch (st : AXState) : Except String AXState :=
  if st.hostMicro = 0 then .ok st
  else
    let st1 := { st with hostMicro := st.hostMicro - 1 }
    if st1.scheduled then runMicroQueue st1 else .ok st1

/-- The run loop over fully-populated slots executes every token in
order. -/
theorem asapRunLoop_map : ∀ (l : List Nat) (acc : List Nat),
    asapRunLoop (l.map some) acc = .ok (acc ++ l) := by
  intro l
  induction l with
  | nil => intro acc; simp [asapRunLoop]
  | cons a rest ih =>
    intro acc
    simp [asapRunLoop, ih]

/-- Once a tick is scheduled, further `tick` calls in the same frame only
append to the queue: no further host microtask, no tick advance. -/
theorem tickCalls_scheduled : ∀ (l : List Nat) (st : AXState),
    st.scheduled = true → st.qItems.length = st.qSize →
    tickCalls st l = { st with
      qItems := st.qItems ++ l.map some
      qSize := st.qSize + l.length
      qCount := st.qCount + l.length } := by
  intro l
  induction l with
  | nil => intro st hs hlen; simp [tickCalls]
  | cons a rest ih =>
    intro st hs hlen
    have h1 : tickCall st a = { st with
        qCount := st.qCount + 1
        qItems := st.qItems ++ [some a]
        qSize := st.qSize + 1 } := by
      simp [tickCall, scheduleTick, queueAdd, hs, RX.listSetO, hlen]
    show tickCalls (tickCall st a) rest = _
    rw [h1, ih _ (by exact hs) (by simp [hlen])]
    simp [List.append_assoc, Nat.add_comm, Nat.add_assoc, Nat.add_left_comm]

/-- C6: for every non-empty burst of `asap` tasks scheduled within one
synchronous frame, exactly one host microtask is handed to the host, the
queue holds all of them, and delivering that single microtask executes
all of them in FIFO order inside exactly one `batch`, leaving the
scheduler idle with the logical size reset. -/
theorem c6_asap_batching (l : List Nat) (h : l ≠ []) :
    (tickCalls axInit l).hostMicro = 1
    ∧ (tickCalls axInit l).qSize = l.length
    ∧ (tickCalls axInit l).qCount = l.length
    ∧ hostDispatch (tickCalls axInit l)
        = .ok { tickCalls axInit l with
            hostMicro := 0, scheduled := false, running := false,
            qSize := 0, qCount := 0, batchRuns := 1, execLog := l } := by
  obtain ⟨a, rest, rfl⟩ : ∃ a rest, l = a :: rest := by
    cases l with
    | nil => exact absurd rfl h
    | cons a rest => exact ⟨a, rest, rfl⟩
  have h1 : tickCall axInit a = { axInit with
      scheduled := true, tick := 1, hostMicro := 1,
      qCount := 1, qItems := [some a], qSize := 1 } := rfl
  have hS := tickCalls_scheduled rest (tickCall axInit a)
    (by rw [h1]) (by rw [h1]; rfl)
  have hfull : tickCalls axInit (a :: rest) = { axInit with
      scheduled := true, tick := 1, hostMicro := 1,
      qItems := some a :: rest.map some,
      qSize := rest.length + 1, qCount := rest.length + 1 } := by
    show tickCalls (tickCall axInit a) rest = _
    rw [hS, h1]
    simp [axInit, Nat.add_comm]
  have htake : (some a :: rest.map some).take (rest.length + 1)
      = some a :: rest.map some := List.take_of_length_le (by simp)
  have hloop : asapRunLoop (some a :: rest.map some) [] = .ok (a :: rest) := by
    simpa using asapRunLoop_map (a :: rest) []
  refine ⟨?_, ?_, ?_, ?_⟩
  · rw [hfull]
  · rw [hfull]; simp
  · rw [hfull]; simp
  · rw [hfull]
    simp [hostDispatch, runMicroQueue, asapRun, htake, hloop, axInit]

/-- Closed instance of the asap-batching theorem: three tasks, one host
microtask, one batch, FIFO execution. -/
theorem c6_asap_batching_witness :
    ([3, 1, 2] : List Nat) ≠ []
    ∧ ((tickCalls axInit [3, 1, 2]).hostMicro = 1
      ∧ (tickCalls axInit [3, 1, 2]).qSize = 3
      ∧ (tickCalls axInit [3, 1, 2]).qCount = 3
      ∧ hostDispatch (tickCalls axInit [3, 1, 2])
          = .ok { tickCalls axInit [3, 1, 2] with
              hostMicro := 0, scheduled := false, running := false,
              qSize := 0, qCount := 0, batchRuns := 1, execLog := [3, 1, 2] }) :=
  ⟨by decide, c6_asap_batching [3, 1, 2] (by decide)⟩

end AX

namespace IA

/-! Shallow embedding of the update closure returned by `indexArray`
(src/unnamed/part_003), specialized to `pool = null` (no pooling), as the
claim requires.  Input values are `Nat`s; the `FALLBACK` sentinel is a
distinct constructor.  `root(mapper)` is abstracted by a fresh-token
counter: one construction at index `i` draws three fresh tokens — the
disposer, the source observable and the mapped value.  Source writes
(`sources[i](() => newItems[i])`) and disposer calls are recorded in
logs. -/

/-- An `items` entry: a plain value or the `FALLBACK` sentinel. -/
inductive IVal where
  | val (n : Nat)
  | fallback
deriving DecidableEq, Repr

/-- The closure state of one `indexArray` instance. -/
structure IAState where
  items : List IVal
  mapped : List Nat
  disposers : List Nat
  sources : List Nat
  len : Nat
  fresh : Nat
  disposeLog : List Nat
  srcWrites : List (Nat × Nat)
deriving DecidableEq, Repr

/-- JS array index assignment `l[i] = v` (holes padded). -/
def listSetPad (l : List Nat) (i : Nat) (v : Nat) : List Nat :=
  if i < l.length then l.set i v
  else l ++ List.replicate (i - l.length) 0 ++ [v]

/-- The first loop of the update closure: positions below the old length
with a changed value write the new value into that position's source
observable; positions past the old length construct a new item under
`root`. -/
def iaLoop1 : Nat → Nat → List Nat → IAState → IAState
  | 0, _, _, st => st
  | Nat.succ n, i, newItems, st =>
    let nv := newItems.getD i 0
    let st1 :=
      if i < st.items.length then
        if st.items.getD i .fallback ≠ .val nv then
          { st with srcWrites := st.srcWrites ++ [(st.sources.getD i 0, nv)] }
        else st
      else
        { st with
          disposers := listSetPad st.disposers i st.fresh
          sources := listSetPad st.sources i (st.fresh + 1)
          mapped := listSetPad st.mapped i (st.fresh + 2)
          fresh := st.fresh + 3 }
    iaLoop1 n (i + 1) newItems st1

/-- The second loop of the update closure: every old position past the
new length runs its disposer. -/
def iaLoop2 : Nat → Nat → IAState → IAState
  | 0, _, st => st
  | Nat.succ n, i, st =>
    if i < st.items.length then
      iaLoop2 n (i + 1)
        { st with disposeLog := st.disposeLog ++ [st.disposers.getD i 0] }
    else st

/-- One call of the update closure with the new input list (pool and
fallback options absent). -/
def iaUpdate (st : IAState) (newItems : List Nat) : IAState :=
  if newItems.length = 0 then
    if st.len ≠ 0 then
      { st with
        disposeLog := st.disposeLog ++ st.disposers
        disposers := []
        items := []
        mapped := []
        len := 0
        sources := [] }
    else st
  else
    let st1 :=
      if st.items.get? 0 = some IVal.fallback then
        { st with
          disposeLog := st.disposeLog ++ st.disposers.take 1
          disposers := []
          items := []
          mapped := []
          len := 0 }
      else st
    let st2 := iaLoop1 newItems.length 0 newItems st1
    let st3 := iaLoop2 st2.items.length newItems.length st2
    { st3 with
      len := newItems.length
      sources := st3.sources.take newItems.length
        ++ List.replicate (newItems.length - st3.sources.length) 0
      disposers := st3.disposers.take newItems.length
        ++ List.replicate (newItems.length - st3.disposers.length) 0
      items := newItems.map .val
      mapped := st3.mapped.take newItems.length }

/-- The source writes issued over positions `[i, i+n)`: one per position
whose old item differs from the new value. -/
def iaWrites (items : List IVal) (sources : List Nat) (next : List Nat)
    (i n : Nat) : List (Nat × Nat) :=
  ((List.range' i n).filter
      (fun j => items.getD j .fallback ≠ .val (next.getD j 0))).map
    (fun j => (sources.getD j 0, next.getD j 0))

/-- The disposer, source and mapped tokens drawn by `n` consecutive
constructions starting at counter `fresh`. -/
def iaCons (fresh : Nat) : Nat → List Nat × List Nat × List Nat
  | 0 => ([], [], [])
  | Nat.succ n =>
    let r := iaCons (fresh + 3) n
    (fresh :: r.1, (fresh + 1) :: r.2.1, (fresh + 2) :: r.2.2)

/-- Splitting the first loop. -/
theorem iaLoop1_add : ∀ (n1 n2 i : Nat) (next : List Nat) (st : IAState),
    iaLoop1 (n1 + n2) i next st
      = iaLoop1 n2 (i + n1) next (iaLoop1 n1 i next st) := by
  intro n1
  induction n1 with
  | zero =>
    intro n2 i next st
    simp [iaLoop1]
  | succ n1 ih =>
    intro n2 i next st
    have h : n1 + 1 + n2 = (n1 + n2) + 1 := by omega
    rw [h]
    show iaLoop1 (n1 + n2) (i + 1) next _ = _
    rw [ih]
    have h2 : i + 1 + n1 = i + (n1 + 1) := by omega
    rw [h2]
    rfl

/-- Unfolding one position of the write list. -/
theorem iaWrites_succ (items : List IVal) (sources next : List Nat) (i n : Nat) :
    iaWrites items sources next i (n + 1)
      = (if items.getD i IVal.fallback ≠ IVal.val (next.getD i 0)
          then [(sources.getD i 0, next.getD i 0)] else [])
        ++ iaWrites items sources next (i + 1) n := by
  by_cases h : items.getD i IVal.fallback ≠ IVal.val (next.getD i 0)
  · rw [if_pos h]
    simp only [iaWrites]
    rw [show List.range' i (n + 1) = i :: List.range' (i + 1) n from rfl,
      List.filter_cons, if_pos (by simpa using h)]
    simp
  · rw [if_neg h]
    simp only [iaWrites]
    rw [show List.range' i (n + 1) = i :: List.range' (i + 1) n from rfl,
      List.filter_cons, if_neg (by simpa using h)]
    simp

/-- Phase one of the first loop, entirely below the old length: only the
source-write log changes, one write per changed position, in index
order. -/
theorem iaLoop1_updates : ∀ (n i : Nat) (next : List Nat) (st : IAState),
    i + n ≤ st.items.length →
    iaLoop1 n i next st
      = { st with srcWrites := st.srcWrites ++ iaWrites st.items st.sources next i n } := by
  intro n
  induction n with
  | zero =>
    intro i next st hle
    simp [iaLoop1, iaWrites]
  | succ n ih =>
    intro i next st hle
    have hi : i < st.items.length := by omega
    have hstep : iaLoop1 (n + 1) i next st
        = iaLoop1 n (i + 1) next
            (if st.items.getD i IVal.fallback ≠ IVal.val (next.getD i 0)
             then { st with
                srcWrites := st.srcWrites ++ [(st.sources.getD i 0, next.getD i 0)] }
             else st) := by
      show iaLoop1 n (i + 1) next _ = _
      congr 1
      simp [hi]
    rw [hstep]
    by_cases hne : st.items.getD i IVal.fallback ≠ IVal.val (next.getD i 0)
    · rw [if_pos hne,
        ih (i + 1) next _ (by show i + 1 + n ≤ st.items.length; omega)]
      rw [iaWrites_succ, if_pos hne]
      simp
    · rw [if_neg hne, ih (i + 1) next st (by omega)]
      rw [iaWrites_succ, if_neg hne]
      simp

/-- Phase two of the first loop, entirely past the old length: each
position appends one freshly constructed disposer, source and mapped
token. -/
theorem iaLoop1_cons : ∀ (n i : Nat) (next : List Nat) (st : IAState),
    st.items.length ≤ i →
    st.disposers.length = i → st.sources.length = i → st.mapped.length = i →
    iaLoop1 n i next st
      = { st with
          disposers := st.disposers ++ (iaCons st.fresh n).1
          sources := st.sources ++ (iaCons st.fresh n).2.1
          mapped := st.mapped ++ (iaCons st.fresh n).2.2
          fresh := st.fresh + 3 * n } := by
  intro n
  induction n with
  | zero =>
    intro i next st hle hd hs hm
    simp [iaLoop1, iaCons]
  | succ n ih =>
    intro i next st hle hd hs hm
    have hni : ¬ i < st.items.length := by omega
    have hpd : listSetPad st.disposers i st.fresh = st.disposers ++ [st.fresh] := by
      simp [listSetPad, hd]
    have hps : listSetPad st.sources i (st.fresh + 1) = st.sources ++ [st.fresh + 1] := by
      simp [listSetPad, hs]
    have hpm : listSetPad st.mapped i (st.fresh + 2) = st.mapped ++ [st.fresh + 2] := by
      simp [listSetPad, hm]
    have hstep : iaLoop1 (n + 1) i next st
        = iaLoop1 n (i + 1) next { st with
            disposers := st.disposers ++ [st.fresh]
            sources := st.sources ++ [st.fresh + 1]
            mapped := st.mapped ++ [st.fresh + 2]
            fresh := st.fresh + 3 } := by
      show iaLoop1 n (i + 1) next _ = _
      congr 1
      simp [hni, hpd, hps, hpm]
    rw [hstep,
      ih (i + 1) next _ (by show st.items.length ≤ i + 1; omega)
        (by simp [hd]) (by simp [hs]) (by simp [hm])]
    simp [iaCons, Nat.mul_add, Nat.add_assoc, Nat.add_comm, Nat.add_left_comm]

/-- The second loop disposes exactly the old positions past the new
length, in order. -/
theorem iaLoop2_spec : ∀ (n i : Nat) (st : IAState),
    st.items.length ≤ i + n →
    iaLoop2 n i st
      = { st with disposeLog := (st.disposeLog ++
          (List.range' i (st.items.length - i)).map
            (fun j => st.disposers.getD j 0)) } := by
  intro n
  induction n with
  | zero =>
    intro i st hle
    have h0 : st.items.length - i = 0 := by omega
    simp [iaLoop2, h0]
  | succ n ih =>
    intro i st hle
    by_cases hi : i < st.items.length
    · have hstep : iaLoop2 (n + 1) i st
          = iaLoop2 n (i + 1)
              { st with disposeLog := st.disposeLog ++ [st.disposers.getD i 0] } := by
        show (if i < st.items.length then _ else _) = _
        rw [if_pos hi]
      rw [hstep, ih (i + 1) _ (by show st.items.length ≤ i + 1 + n; omega)]
      have hsplit : st.items.length - i = (st.items.length - (i + 1)) + 1 := by omega
      rw [hsplit, show List.range' i ((st.items.length - (i + 1)) + 1)
          = i :: List.range' (i + 1) (st.items.length - (i + 1)) from rfl]
      simp
    · have h0 : st.items.length - i = 0 := by omega
      have hstep : iaLoop2 (n + 1) i st = st := by
        show (if i < st.items.length then _ else _) = _
        rw [if_neg hi]
      rw [hstep]
      simp [h0]

/-- Reading a suffix position-by-position is dropping a prefix. -/
theorem drop_eq_map_range' :
    ∀ (l : List Nat) (i : Nat),
    (List.range' i (l.length - i)).map (fun j => l.getD j 0) = l.drop i := by
  suffices h : ∀ (n : Nat) (l : List Nat) (i : Nat), l.length - i = n →
      (List.range' i n).map (fun j => l.getD j 0) = l.drop i by
    intro l i
    exact h _ l i rfl
  intro n
  induction n with
  | zero =>
    intro l i hi
    have : l.drop i = [] := List.drop_eq_nil_of_le (by omega)
    simp [this]
  | succ n ih =>
    intro l i hi
    have hlt : i < l.length := by omega
    rw [show List.range' i (n + 1) = i :: List.range' (i + 1) n from rfl,
      List.map_cons, ih l (i + 1) (by omega)]
    rw [List.drop_eq_getElem_cons hlt]
    simp [List.getD_eq_getElem?_getD, List.getElem?_eq_getElem hlt]

/-- The construction token lists have one entry per construction. -/
theorem iaCons_lengths : ∀ (f k : Nat),
    (iaCons f k).1.length = k ∧ (iaCons f k).2.1.length = k
    ∧ (iaCons f k).2.2.length = k := by
  intro f k
  induction k generalizing f with
  | zero => simp [iaCons]
  | succ k ih =>
    have h := ih (f + 3)
    simp [iaCons, h.1, h.2.1, h.2.2]

/-- C8: one update step of `indexArray` from a non-empty previous input
`prev` (the closure state holds `prev` as items with per-position mapped
values, disposers and sources) to a non-empty `next`: the first
`min |prev| |next|` mapped entries are kept (the new mapped array is a
`take` of the old one on that prefix), construction happens only past
the old length (the appended fresh tokens), disposal happens only past
the new length (exactly the dropped disposers, in order), and the source
writes are exactly the changed positions of the shared prefix, in index
order. -/
theorem c8_indexArray_prefix
    (st : IAState) (prev next : List Nat)
    (hprev : prev ≠ []) (hnext : next ≠ [])
    (hitems : st.items = prev.map IVal.val)
    (hm : st.mapped.length = prev.length)
    (hd : st.disposers.length = prev.length)
    (hs : st.sources.length = prev.length) :
    (iaUpdate st next).mapped
        = st.mapped.take next.length
          ++ (iaCons st.fresh (next.length - prev.length)).2.2
    ∧ (iaUpdate st next).sources
        = st.sources.take next.length
          ++ (iaCons st.fresh (next.length - prev.length)).2.1
    ∧ (iaUpdate st next).disposers
        = st.disposers.take next.length
          ++ (iaCons st.fresh (next.length - prev.length)).1
    ∧ (iaUpdate st next).disposeLog
        = st.disposeLog ++ st.disposers.drop next.length
    ∧ (iaUpdate st next).srcWrites
        = st.srcWrites
          ++ iaWrites st.items st.sources next 0 (min prev.length next.length)
    ∧ (iaUpdate st next).items = next.map IVal.val
    ∧ (iaUpdate st next).len = next.length := by
  have hN : ¬ (next.length = 0) := by
    cases next with
    | nil => exact absurd rfl hnext
    | cons a t => simp
  have hfb : ¬ (st.items[0]? = some IVal.fallback) := by
    cases prev with
    | nil => exact absurd rfl hprev
    | cons p t => simp [hitems]
  have hP : st.items.length = prev.length := by simp [hitems]
  have hclen := iaCons_lengths st.fresh (next.length - prev.length)
  by_cases hc : next.length ≤ prev.length
  · have hk0 : next.length - prev.length = 0 := by omega
    have hmin : min prev.length next.length = next.length := by omega
    have h2 : iaLoop1 next.length 0 next st
        = { st with srcWrites := st.srcWrites
            ++ iaWrites st.items st.sources next 0 next.length } :=
      iaLoop1_updates next.length 0 next st (by omega)
    have hdrop : (List.range' next.length (prev.length - next.length)).map
        (fun j => st.disposers[j]?.getD 0) = st.disposers.drop next.length := by
      have h := drop_eq_map_range' st.disposers next.length
      rw [hd] at h
      simpa using h
    have h3A : iaLoop2 prev.length next.length
        { st with srcWrites := st.srcWrites
            ++ iaWrites st.items st.sources next 0 next.length }
        = { st with
            srcWrites := st.srcWrites
              ++ iaWrites st.items st.sources next 0 next.length
            disposeLog := st.disposeLog ++ st.disposers.drop next.length } := by
      rw [iaLoop2_spec prev.length next.length _
        (by show st.items.length ≤ next.length + prev.length; omega)]
      simp [hP, hdrop]
    refine ⟨?_, ?_, ?_, ?_, ?_, ?_, ?_⟩ <;>
      simp [iaUpdate, hN, hfb, h2, h3A, hP, hd, hs, hk0, hmin, iaCons]
  · have hmin : min prev.length next.length = prev.length := by omega
    have hk : prev.length + (next.length - prev.length) = next.length := by omega
    have hsplit : iaLoop1 next.length 0 next st
        = iaLoop1 (next.length - prev.length) prev.length next
            (iaLoop1 prev.length 0 next st) := by
      conv_lhs => rw [← hk]
      rw [iaLoop1_add]
      simp
    have h2a : iaLoop1 prev.length 0 next st
        = { st with srcWrites := st.srcWrites
            ++ iaWrites st.items st.sources next 0 prev.length } :=
      iaLoop1_updates prev.length 0 next st (by omega)
    have h2b := iaLoop1_cons (next.length - prev.length) prev.length next
      { st with srcWrites := st.srcWrites
          ++ iaWrites st.items st.sources next 0 prev.length }
      (by show st.items.length ≤ prev.length; omega)
      (by show st.disposers.length = prev.length; exact hd)
      (by show st.sources.length = prev.length; exact hs)
      (by show st.mapped.length = prev.length; exact hm)
    have h0 : prev.length - next.length = 0 := by omega
    have hdr : st.disposers.drop next.length = [] :=
      List.drop_eq_nil_of_le (by omega)
    have hmlen : st.mapped.length ≤ next.length := by omega
    have hmlen2 : (st.mapped ++ (iaCons st.fresh (next.length - prev.length)).2.2).length
        = next.length := by
      simp [hm, hclen.2.2]
      omega
    have hslen : (st.sources ++ (iaCons st.fresh (next.length - prev.length)).2.1).length
        = next.length := by
      simp [hs, hclen.2.1]
      omega
    have hdlen : (st.disposers ++ (iaCons st.fresh (next.length - prev.length)).1).length
        = next.length := by
      simp [hd, hclen.1]
      omega
    have h3B : iaLoop2 prev.length next.length
        { st with
          mapped := st.mapped ++ (iaCons st.fresh (next.length - prev.length)).2.2
          disposers := st.disposers ++ (iaCons st.fresh (next.length - prev.length)).1
          sources := st.sources ++ (iaCons st.fresh (next.length - prev.length)).2.1
          fresh := st.fresh + 3 * (next.length - prev.length)
          srcWrites := st.srcWrites
            ++ iaWrites st.items st.sources next 0 prev.length }
        = { st with
          mapped := st.mapped ++ (iaCons st.fresh (next.length - prev.length)).2.2
          disposers := st.disposers ++ (iaCons st.fresh (next.length - prev.length)).1
          sources := st.sources ++ (iaCons st.fresh (next.length - prev.length)).2.1
          fresh := st.fresh + 3 * (next.length - prev.length)
          srcWrites := st.srcWrites
            ++ iaWrites st.items st.sources next 0 prev.length } := by
      rw [iaLoop2_spec prev.length next.length _
        (by show st.items.length ≤ next.length + prev.length; omega)]
      simp [hP, h0]
    refine ⟨?_, ?_, ?_, ?_, ?_, ?_, ?_⟩ <;>
      simp [iaUpdate, hN, hfb, hsplit, h2a, h2b, h3B, hP, h0, hdr, hmin,
        List.take_of_length_le hmlen,
        List.take_of_length_le (le_of_eq hmlen2),
        List.take_of_length_le (le_of_eq hslen),
        List.take_of_length_le (le_of_eq hdlen),
        List.take_of_length_le (show st.sources.length ≤ next.length by omega),
        List.take_of_length_le (show st.disposers.length ≤ next.length by omega),
        hslen, hdlen]

/-- Closure state after a previous update with input `[4, 5]`: two
mapped entries, disposers and sources. -/
def c8St : IAState :=
  { items := [IVal.val 4, IVal.val 5], mapped := [100, 101],
    disposers := [200, 201], sources := [300, 301], len := 2, fresh := 50,
    disposeLog := [], srcWrites := [] }

/-- Closed instance of the prefix-preservation theorem: updating from
`[4, 5]` to `[4, 9, 7]` keeps both existing mapped entries, writes the
new value `9` into the position-1 source, constructs exactly one new
tail entry and disposes nothing. -/
theorem c8_indexArray_prefix_witness :
    (iaUpdate c8St [4, 9, 7]).mapped
        = c8St.mapped.take 3 ++ (iaCons c8St.fresh 1).2.2
    ∧ (iaUpdate c8St [4, 9, 7]).sources
        = c8St.sources.take 3 ++ (iaCons c8St.fresh 1).2.1
    ∧ (iaUpdate c8St [4, 9, 7]).disposers
        = c8St.disposers.take 3 ++ (iaCons c8St.fresh 1).1
    ∧ (iaUpdate c8St [4, 9, 7]).disposeLog
        = c8St.disposeLog ++ c8St.disposers.drop 3
    ∧ (iaUpdate c8St [4, 9, 7]).srcWrites
        = c8St.srcWrites ++ iaWrites c8St.items c8St.sources [4, 9, 7] 0 (min 2 3)
    ∧ (iaUpdate c8St [4, 9, 7]).items = [4, 9, 7].map IVal.val
    ∧ (iaUpdate c8St [4, 9, 7]).len = 3 :=
  c8_indexArray_prefix c8St [4, 5] [4, 9, 7] (by decide) (by decide)
    rfl rfl rfl rfl

end IA
